import Mathlib

/-!
Verification of the credential canonicalization, signing, verification and
anchoring core of the SIH_BACKEND repository (src/cred2.py,
src/verification_enginee.py, with the call site in src/stsApp.py).

The Python documents handled by this core are JSON values built from strings,
booleans, arrays and objects (string keys); `Json` below embeds exactly that
shape.  Library primitives that the source calls (SHA-256, Ed25519, base58,
base64url, `json.dumps`, UTF-8) are modelled executably; the two cryptographic
primitives are idealized (collision-free hash, EUF-CMA signature), every other
primitive is implemented bit-for-bit.
-/

set_option maxRecDepth 40000

/-- A Python/JSON document value as handled by the credential engine: the
credential payloads, proofs and JWS headers of the source contain only
strings, booleans, arrays and string-keyed objects (Python dicts, embedded
as association lists in insertion order). -/
inductive Json where
  | str (s : String)
  | bool (b : Bool)
  | arr (xs : List Json)
  | obj (kvs : List (String × Json))

/-- Python `d[k]` / `d.get(k)` lookup on a dict, first occurrence wins
(a real Python dict never holds a duplicate key). -/
def alookup (k : String) : List (String × Json) → Option Json
  | [] => none
  | (k2, v) :: es => if k2 = k then some v else alookup k es

/-- Removal of the entry for a key, as `dict.pop(k)` leaves the dict. -/
def eraseKey (k : String) : List (String × Json) → List (String × Json)
  | [] => []
  | (k2, v) :: es => if k2 = k then es else (k2, v) :: eraseKey k es

/-- The key list of an object, in stored order. -/
def keysOf (es : List (String × Json)) : List String := es.map Prod.fst

/-- No key occurs twice: the well-formedness every Python dict guarantees. -/
def nodupKeysB : List (String × Json) → Bool
  | [] => true
  | (k, _) :: es => !(keysOf es).contains k && nodupKeysB es

/-- Code-point comparison of two character lists: the order Python uses to
compare `str` values (and hence the order `sort_keys=True` sorts by). -/
def keyLe : List Char → List Char → Bool
  | [], _ => true
  | _ :: _, [] => false
  | x :: xs, y :: ys =>
      if x.toNat < y.toNat then true
      else if y.toNat < x.toNat then false
      else keyLe xs ys

/-- Order on object entries: compare the keys as Python string comparison does. -/
def entryLe (a b : String × Json) : Bool := keyLe a.1.data b.1.data

/-- Stable insertion of one entry into a key-sorted entry list. -/
def insEntry (a : String × Json) : List (String × Json) → List (String × Json)
  | [] => [a]
  | b :: bs => if entryLe a b then a :: b :: bs else b :: insEntry a bs

/-- Stable sort of an object's entries by key: the arrangement
`sorted(d.items())` produces for a duplicate-free dict. -/
def sortEntries : List (String × Json) → List (String × Json)
  | [] => []
  | a :: as' => insEntry a (sortEntries as')

/-- Lowercase hexadecimal digit character, as CPython's `%04x` formatting emits. -/
def hexDig (n : Nat) : Char := if n < 10 then Char.ofNat (48 + n) else Char.ofNat (87 + n)

/-- A `\uXXXX` escape for one 16-bit code unit, lowercase hex. -/
def u4 (n : Nat) : List Char :=
  ['\\', 'u', hexDig (n / 4096 % 16), hexDig (n / 256 % 16), hexDig (n / 16 % 16),
   hexDig (n % 16)]

/-- CPython JSON string escaping with `ensure_ascii=True` (the `json.dumps`
default): the two-character shortcuts, `\uXXXX` for remaining control
characters, printable ASCII 0x20..0x7e verbatim, `\uXXXX` above 0x7e, and a
surrogate pair of escapes beyond the basic multilingual plane. -/
def escChar (c : Char) : List Char :=
  if c = '"' then ['\\', '"']
  else if c = '\\' then ['\\', '\\']
  else if c.toNat = 8 then ['\\', 'b']
  else if c.toNat = 12 then ['\\', 'f']
  else if c = '\n' then ['\\', 'n']
  else if c = '\r' then ['\\', 'r']
  else if c = '\t' then ['\\', 't']
  else if c.toNat < 32 then u4 c.toNat
  else if c.toNat < 127 then [c]
  else if c.toNat < 65536 then u4 c.toNat
  else u4 (55296 + (c.toNat - 65536) / 1024) ++ u4 (56320 + (c.toNat - 65536) % 1024)

/-- JSON escaping of a whole character sequence. -/
def escapeStr (s : List Char) : List Char := s.flatMap escChar

/-- A JSON string literal: quote, escaped body, quote. -/
def renderStr (s : String) : List Char := '"' :: (escapeStr s.data ++ ['"'])

mutual
/-- Compact JSON rendering of a document in stored order, with the
`separators=(',', ':')` of the credential engine's canonical `json.dumps`
calls: no whitespace anywhere. -/
def render : Json → List Char
  | .str s => renderStr s
  | .bool true => ['t', 'r', 'u', 'e']
  | .bool false => ['f', 'a', 'l', 's', 'e']
  | .arr xs => '[' :: (renderItems xs ++ [']'])
  | .obj es => '{' :: (renderFields es ++ ['}'])
def renderItems : List Json → List Char
  | [] => []
  | [x] => render x
  | x :: y :: xs => render x ++ ',' :: renderItems (y :: xs)
def renderFields : List (String × Json) → List Char
  | [] => []
  | [(k, v)] => renderStr k ++ ':' :: render v
  | (k, v) :: e :: es => (renderStr k ++ ':' :: render v) ++ ',' :: renderFields (e :: es)
end

mutual
/-- JSON rendering with CPython's default separators `(', ', ': ')` and no key
sorting: what plain `json.dumps(obj)` produces for the JWS header. -/
def renderDefault : Json → List Char
  | .str s => renderStr s
  | .bool true => ['t', 'r', 'u', 'e']
  | .bool false => ['f', 'a', 'l', 's', 'e']
  | .arr xs => '[' :: (renderDefaultItems xs ++ [']'])
  | .obj es => '{' :: (renderDefaultFields es ++ ['}'])
def renderDefaultItems : List Json → List Char
  | [] => []
  | [x] => renderDefault x
  | x :: y :: xs => renderDefault x ++ ',' :: ' ' :: renderDefaultItems (y :: xs)
def renderDefaultFields : List (String × Json) → List Char
  | [] => []
  | [(k, v)] => renderStr k ++ ':' :: ' ' :: renderDefault v
  | (k, v) :: e :: es =>
      (renderStr k ++ ':' :: ' ' :: renderDefault v) ++ ',' :: ' ' :: renderDefaultFields (e :: es)
end

mutual
/-- Recursive key-sorting of every object in a document.  Rendering the result
in stored order equals what CPython's `sort_keys=True` serializer emits, since
that serializer sorts each object's items as it reaches them. -/
def sortDoc : Json → Json
  | .str s => .str s
  | .bool b => .bool b
  | .arr xs => .arr (sortDocList xs)
  | .obj es => .obj (sortEntries (sortDocEntries es))
def sortDocList : List Json → List Json
  | [] => []
  | x :: xs => sortDoc x :: sortDocList xs
def sortDocEntries : List (String × Json) → List (String × Json)
  | [] => []
  | (k, v) :: es => (k, sortDoc v) :: sortDocEntries es
end

mutual
/-- Well-formedness: every object in the document has duplicate-free keys,
which is automatic for any document arising from Python dicts. -/
def Json.wf : Json → Bool
  | .str _ => true
  | .bool _ => true
  | .arr xs => wfList xs
  | .obj es => nodupKeysB es && wfEntries es
def wfList : List Json → Bool
  | [] => true
  | x :: xs => x.wf && wfList xs
def wfEntries : List (String × Json) → Bool
  | [] => true
  | (_, v) :: es => v.wf && wfEntries es
end

/-- The character stream of `json.dumps(d, separators=(',', ':'),
sort_keys=True)`: the canonical serialization both the signing path
(cred2.py line 65) and the verification path (verification_enginee.py
line 40) and both anchor-hash call sites rely on. -/
def json_dumps_sorted (d : Json) : List Char := render (sortDoc d)

/-- The character stream of plain `json.dumps(d)` (default separators,
insertion order), used for the JWS protected header (cred2.py line 62). -/
def json_dumps_default (d : Json) : List Char := renderDefault d

/-- UTF-8 encoding of one scalar value, as `str.encode('utf-8')` produces. -/
def utf8Char (c : Char) : List Nat :=
  let n := c.toNat
  if n < 128 then [n]
  else if n < 2048 then [192 + n / 64, 128 + n % 64]
  else if n < 65536 then [224 + n / 4096, 128 + n / 64 % 64, 128 + n % 64]
  else [240 + n / 262144, 128 + n / 4096 % 64, 128 + n / 64 % 64, 128 + n % 64]

/-- UTF-8 encoding of a character sequence. -/
def utf8Encode (s : List Char) : List Nat := s.flatMap utf8Char

/-- The canonical payload bytes: `json.dumps(d, separators=(',', ':'),
sort_keys=True).encode('utf-8')`. -/
def canonical_bytes (d : Json) : List Nat := utf8Encode (json_dumps_sorted d)

/-- Value of one lowercase hexadecimal digit character. -/
def hexVal (c : Char) : Option Nat :=
  if 48 ≤ c.toNat ∧ c.toNat ≤ 57 then some (c.toNat - 48)
  else if 97 ≤ c.toNat ∧ c.toNat ≤ 102 then some (c.toNat - 87)
  else none

/-- Value of four hexadecimal digit characters, big-endian. -/
def hex4 (a b c d : Char) : Option Nat :=
  match hexVal a, hexVal b, hexVal c, hexVal d with
  | some va, some vb, some vc, some vd => some (((va * 16 + vb) * 16 + vc) * 16 + vd)
  | _, _, _, _ => none

/-- Inverse of the two-character escape shortcuts the escaper emits. -/
def unescShort (e : Char) : Option Char :=
  if e = '"' then some '"'
  else if e = '\\' then some '\\'
  else if e = 'b' then some (Char.ofNat 8)
  else if e = 'f' then some (Char.ofNat 12)
  else if e = 'n' then some '\n'
  else if e = 'r' then some '\r'
  else if e = 't' then some '\t'
  else none

/-- Decoder for the body of a rendered JSON string literal (after the opening
quote, up to and including the closing quote).  A proof device: it inverts
`escapeStr`, which gives injectivity of the rendering. -/
def decodeStrBody : List Char → Option (List Char × List Char)
  | [] => none
  | '"' :: r => some ([], r)
  | '\\' :: 'u' :: a :: b :: c :: d :: r =>
      match hex4 a b c d with
      | none => none
      | some n =>
          if 55296 ≤ n ∧ n ≤ 56319 then
            match r with
            | '\\' :: 'u' :: a2 :: b2 :: c2 :: d2 :: r2 =>
                match hex4 a2 b2 c2 d2 with
                | none => none
                | some m =>
                    if 56320 ≤ m ∧ m ≤ 57343 then
                      (decodeStrBody r2).map (fun p =>
                        (Char.ofNat (65536 + (n - 55296) * 1024 + (m - 56320)) :: p.1, p.2))
                    else none
            | _ => none
          else
            (decodeStrBody r).map (fun p => (Char.ofNat n :: p.1, p.2))
  | '\\' :: e :: r =>
      match unescShort e with
      | none => none
      | some ch => (decodeStrBody r).map (fun p => (ch :: p.1, p.2))
  | c :: r => (decodeStrBody r).map (fun p => (c :: p.1, p.2))

mutual
/-- Parser for the compact rendering, by fuel; inverts `render` exactly and so
witnesses its injectivity. -/
def parseVal : Nat → List Char → Option (Json × List Char)
  | 0, _ => none
  | fuel + 1, cs =>
      match cs with
      | '"' :: r => (decodeStrBody r).map (fun p => (Json.str (String.mk p.1), p.2))
      | 't' :: 'r' :: 'u' :: 'e' :: r => some (.bool true, r)
      | 'f' :: 'a' :: 'l' :: 's' :: 'e' :: r => some (.bool false, r)
      | '[' :: ']' :: r => some (.arr [], r)
      | '[' :: r => (parseItems fuel r).map (fun p => (Json.arr p.1, p.2))
      | '{' :: '}' :: r => some (.obj [], r)
      | '{' :: r => (parseFields fuel r).map (fun p => (Json.obj p.1, p.2))
      | _ => none
def parseItems : Nat → List Char → Option (List Json × List Char)
  | 0, _ => none
  | fuel + 1, cs =>
      match parseVal fuel cs with
      | none => none
      | some (v, r) =>
          match r with
          | ',' :: r2 => (parseItems fuel r2).map (fun p => (v :: p.1, p.2))
          | ']' :: r2 => some ([v], r2)
          | _ => none
def parseFields : Nat → List Char → Option (List (String × Json) × List Char)
  | 0, _ => none
  | fuel + 1, cs =>
      match cs with
      | '"' :: r =>
          match decodeStrBody r with
          | none => none
          | some (k, r1) =>
              match r1 with
              | ':' :: r2 =>
                  match parseVal fuel r2 with
                  | none => none
                  | some (v, r3) =>
                      match r3 with
                      | ',' :: r4 =>
                          (parseFields fuel r4).map (fun p => ((String.mk k, v) :: p.1, p.2))
                      | '}' :: r4 => some ([(String.mk k, v)], r4)
                      | _ => none
              | _ => none
      | _ => none
end

/-- Two documents are the same logical document: equal scalars, elementwise
same arrays, and objects carrying the same keys with same-document values,
regardless of key insertion order (lookup-for-lookup agreement, position-for-
position in arrays). -/
inductive SameDoc : Json → Json → Prop where
  | str (s : String) : SameDoc (.str s) (.str s)
  | bool (b : Bool) : SameDoc (.bool b) (.bool b)
  | arr {xs ys : List Json} :
      xs.length = ys.length →
      (∀ i v w, xs.get? i = some v → ys.get? i = some w → SameDoc v w) →
      SameDoc (.arr xs) (.arr ys)
  | obj {es1 es2 : List (String × Json)} :
      (∀ k, (alookup k es1).isSome = (alookup k es2).isSome) →
      (∀ k v w, alookup k es1 = some v → alookup k es2 = some w → SameDoc v w) →
      SameDoc (.obj es1) (.obj es2)

/-- Little-endian digits of `n` in a base, by explicit fuel (the fuel `n`
itself always suffices), so that every use reduces by kernel computation. -/
def digsAux (base : Nat) : Nat → Nat → List Nat
  | 0, _ => []
  | fuel + 1, n => if n = 0 then [] else n % base :: digsAux base fuel (n / base)

/-- Little-endian base-`base` digits of `n` (empty for zero). -/
def digs (base n : Nat) : List Nat := digsAux base n n

/-- Big-endian digit list to number, as `int.from_bytes(..., 'big')` and the
base-58 accumulation loop both compute. -/
def beDigitsToNat (base : Nat) (l : List Nat) : Nat :=
  l.foldl (fun a d => a * base + d) 0

/-- The bitcoin base58 alphabet used by the `base58` package. -/
def b58Alphabet : List Char :=
  "123456789ABCDEFGHJKLMNPQRSTUVWXYZabcdefghijkmnopqrstuvwxyz".data

/-- Base58 digit to character. -/
def b58ch (d : Nat) : Char := b58Alphabet.getD d '1'

/-- Character to base58 digit, scanning the alphabet. -/
def b58valAux (c : Char) : List Char → Nat → Option Nat
  | [], _ => none
  | a :: r, i => if a = c then some i else b58valAux c r (i + 1)

/-- Character to base58 digit; `none` on a character outside the alphabet
(`base58.b58decode` raises ValueError there). -/
def b58val (c : Char) : Option Nat := b58valAux c b58Alphabet 0

/-- Count of leading zero bytes, which `b58encode` encodes as leading `1`s. -/
def countLeadingZeroBytes : List Nat → Nat
  | [] => 0
  | x :: r => if x = 0 then countLeadingZeroBytes r + 1 else 0

/-- Count of leading `1` characters, decoded by `b58decode` as zero bytes. -/
def countLeadingOneChars : List Char → Nat
  | [] => 0
  | c :: r => if c = '1' then countLeadingOneChars r + 1 else 0

/-- `base58.b58encode`: leading zero bytes become `1`s, the remainder is the
big-endian base58 numeral of the byte string's value. -/
def b58encode (b : List Nat) : List Char :=
  List.replicate (countLeadingZeroBytes b) '1'
    ++ (digs 58 (beDigitsToNat 256 b)).reverse.map b58ch

/-- All-characters-to-digits, failing on the first invalid character. -/
def b58vals : List Char → Option (List Nat)
  | [] => some []
  | c :: r =>
      match b58val c, b58vals r with
      | some v, some vs => some (v :: vs)
      | _, _ => none

/-- `base58.b58decode`: leading `1`s become zero bytes, the rest is read as a
base58 numeral and written out as big-endian bytes. -/
def b58decode (s : List Char) : Option (List Nat) :=
  match b58vals s with
  | none => none
  | some vs =>
      some (List.replicate (countLeadingOneChars s) 0
        ++ (digs 256 (beDigitsToNat 58 vs)).reverse)

/-- Base64url digit to character (the `-`/`_` alphabet of
`base64.urlsafe_b64encode`). -/
def b64ch (d : Nat) : Char :=
  if d < 26 then Char.ofNat (65 + d)
  else if d < 52 then Char.ofNat (97 + (d - 26))
  else if d < 62 then Char.ofNat (48 + (d - 52))
  else if d = 62 then '-'
  else '_'

/-- Character to base64 digit.  Python's `urlsafe_b64decode` translates
`-`/`_` to `+`/`/` and then decodes, so both alphabets are accepted. -/
def b64val (c : Char) : Option Nat :=
  if 65 ≤ c.toNat ∧ c.toNat ≤ 90 then some (c.toNat - 65)
  else if 97 ≤ c.toNat ∧ c.toNat ≤ 122 then some (c.toNat - 97 + 26)
  else if 48 ≤ c.toNat ∧ c.toNat ≤ 57 then some (c.toNat - 48 + 52)
  else if c = '-' ∨ c = '+' then some 62
  else if c = '_' ∨ c = '/' then some 63
  else none

/-- Padded base64 encoding, three bytes to four characters. -/
def b64encPad : List Nat → List Char
  | [] => []
  | [b0] => [b64ch (b0 / 4), b64ch (b0 % 4 * 16), '=', '=']
  | [b0, b1] => [b64ch (b0 / 4), b64ch (b0 % 4 * 16 + b1 / 16), b64ch (b1 % 16 * 4), '=']
  | b0 :: b1 :: b2 :: rest =>
      b64ch (b0 / 4) :: b64ch (b0 % 4 * 16 + b1 / 16) :: b64ch (b1 % 16 * 4 + b2 / 64)
        :: b64ch (b2 % 64) :: b64encPad rest

/-- `base64.urlsafe_b64encode(b).rstrip(b'=')`: padded encoding with the
trailing padding removed, as the source builds the JWS segments. -/
def b64encode_nopad (b : List Nat) : List Char :=
  ((b64encPad b).reverse.dropWhile (fun c => c = '=')).reverse

/-- The six-bit groups of a byte string, most significant first. -/
def sixbits : List Nat → List Nat
  | [] => []
  | [b0] => [b0 / 4, b0 % 4 * 16]
  | [b0, b1] => [b0 / 4, b0 % 4 * 16 + b1 / 16, b1 % 16 * 4]
  | b0 :: b1 :: b2 :: rest =>
      b0 / 4 :: (b0 % 4 * 16 + b1 / 16) :: (b1 % 16 * 4 + b2 / 64) :: b2 % 64 :: sixbits rest

/-- Reassembling bytes from six-bit groups, as the lenient binascii decoder
does: groups of four, with final groups of two or three providing one or two
bytes; a leftover single group is an error. -/
def quadDecode : List Nat → Option (List Nat)
  | [] => some []
  | [_] => none
  | [v0, v1] => some [v0 * 4 + v1 / 16]
  | [v0, v1, v2] => some [v0 * 4 + v1 / 16, v1 % 16 * 16 + v2 / 4]
  | v0 :: v1 :: v2 :: v3 :: rest =>
      (quadDecode rest).map (fun bs =>
        (v0 * 4 + v1 / 16) :: (v1 % 16 * 16 + v2 / 4) :: (v2 % 4 * 64 + v3) :: bs)

/-- `base64.urlsafe_b64decode` in CPython's default non-strict mode: characters
outside the base64 alphabet (including all `=` padding) are discarded, and the
remaining data characters are decoded in groups; a data length of 1 mod 4 is a
`binascii` error. -/
def b64decodePy (s : List Char) : Option (List Nat) := quadDecode (s.filterMap b64val)

/-- Idealized SHA-256: the digest is modelled as an opaque wrapper of the
input bytes, so equal inputs give equal digests and (idealizing collision
freedom) distinct inputs give distinct digests.  Only equality of digests is
ever observed by the engine. -/
structure Sha256Digest where
  bytes : List Nat
deriving DecidableEq

/-- `hashlib.sha256(b).digest()` in the idealized model. -/
def sha256 (b : List Nat) : Sha256Digest := ⟨b⟩

/-- Two lowercase hex characters of one byte. -/
def hexPair (y : Nat) : List Char := [hexDig (y / 16 % 16), hexDig (y % 16)]

/-- `hashlib.sha256(b).hexdigest()` in the idealized model: the digest bytes
in lowercase hex. -/
def sha256_hexdigest (b : List Nat) : String := String.mk ((sha256 b).bytes.flatMap hexPair)

/-- An Ed25519 private key, abstracted to its seed. -/
structure Ed25519PrivateKey where
  seed : Nat
deriving DecidableEq

/-- Big-endian fixed-width byte string of a number. -/
def natToBytesBE (width n : Nat) : List Nat :=
  (List.range width).reverse.map (fun i => n / 256 ^ i % 256)

/-- The 32 raw public-key bytes derived from a private key
(`public_key().public_bytes(Raw, Raw)` in the idealized model). -/
def ed25519_public_bytes (k : Ed25519PrivateKey) : List Nat := natToBytesBE 32 k.seed

/-- Idealized EUF-CMA Ed25519 signing: a signature is an opaque token binding
the signing key and the exact message; concretely the public-key bytes
followed by the message bytes. -/
def ed25519_sign (k : Ed25519PrivateKey) (msg : List Nat) : List Nat :=
  ed25519_public_bytes k ++ msg

/-- Idealized Ed25519 verification: accepts exactly the signature produced by
the matching private key over exactly this message. -/
def ed25519_verify (pk sig msg : List Nat) : Bool := sig == pk ++ msg

/-- The Python exceptions the credential builder can raise. -/
inductive PyError where
  | keyError (k : String)
deriving DecidableEq

/-- Lookup in the subject-attribute record (a Python dict of strings). -/
def alookupStr (k : String) : List (String × String) → Option String
  | [] => none
  | (k2, v) :: es => if k2 = k then some v else alookupStr k es

/-- Python `d[k]` on the subject-attribute record: `KeyError` when absent. -/
def dictGet (d : List (String × String)) (k : String) : Except PyError String :=
  match alookupStr k d with
  | some v => .ok v
  | none => .error (.keyError k)

/-- `generate_issuer_id` (cred2.py lines 17-37): derive the did:key identifier
and verification method from a key pair.  The key itself is an input here;
the random source that generates it is outside the model. -/
def generate_issuer_id (private_key : Ed25519PrivateKey) :
    Ed25519PrivateKey × String × String :=
  let public_bytes := ed25519_public_bytes private_key
  let prefixed_public_bytes := 237 :: 1 :: public_bytes
  let did_key_identifier := String.mk (b58encode prefixed_public_bytes)
  let issuer_did := "did:key:" ++ did_key_identifier
  let verification_method := issuer_did ++ "#" ++ did_key_identifier
  (private_key, issuer_did, verification_method)

/-- The JWS protected header of cred2.py line 61:
`{"alg": "EdDSA", "b64": False, "crit": ["b64"]}`. -/
def jws_header_obj : Json :=
  .obj [("alg", .str "EdDSA"), ("b64", .bool false), ("crit", .arr [.str "b64"])]

/-- The credential payload entries of cred2.py lines 44-58, given the issuer
identity, the issuance timestamp and the six subject attributes. -/
def build_payload_entries (issuer_did issuanceDate passportNumber name nationality
    emergencyContact bloodType insurancePolicyId : String) : List (String × Json) := [
  ("@context", .arr [.str "https://www.w3.org/2018/credentials/v1"]),
  ("id", .str "urn:uuid:4f378344-8596-4c3a-a978-8fcaba3903c5"),
  ("type", .arr [.str "VerifiableCredential", .str "TouristCredential"]),
  ("issuer", .str issuer_did),
  ("issuanceDate", .str (issuanceDate ++ "Z")),
  ("credentialSubject", .obj [
    ("id", .str ("did:example:" ++ sha256_hexdigest (utf8Encode passportNumber.data))),
    ("touristInfo", .obj [
      ("type", .str "Tourist"),
      ("name", .str name),
      ("nationality", .str nationality),
      ("passportNumber", .str passportNumber),
      ("emergencyContact", .str emergencyContact),
      ("bloodType", .str bloodType),
      ("insurancePolicyId", .str insurancePolicyId)])])]

/-- The detached JWS of cred2.py lines 60-71: base64url headers and signature
with padding stripped, joined with an empty middle segment. -/
def detached_jws_of (issuer_private_key : Ed25519PrivateKey) (payload : Json) : String :=
  let encoded_header := b64encode_nopad (utf8Encode (json_dumps_default jws_header_obj))
  let payload_bytes := canonical_bytes payload
  let signing_input := utf8Encode encoded_header ++ Char.toNat '.' :: payload_bytes
  let signature := ed25519_sign issuer_private_key signing_input
  let encoded_signature := b64encode_nopad signature
  String.mk encoded_header ++ ".." ++ String.mk encoded_signature

/-- The proof block of cred2.py lines 74-80. -/
def proof_entries_of (issuer_private_key : Ed25519PrivateKey)
    (verification_method proofCreated : String) (payload : Json) : List (String × Json) :=
  [("type", .str "Ed25519Signature2018"),
   ("created", .str (proofCreated ++ "Z")),
   ("verificationMethod", .str verification_method),
   ("proofPurpose", .str "assertionMethod"),
   ("jws", .str (detached_jws_of issuer_private_key payload))]

/-- `create_signed_vc` (cred2.py lines 39-83).  `issuanceDate` and
`proofCreated` stand for the two `datetime.utcnow().isoformat(...)` reads; the
function appends the `'Z'` suffix as the source does.  The source returns
`json.dumps(final_vc)`; callers immediately parse that string back, so the
model returns the document itself.  The subject-attribute accesses happen in
the evaluation order of the source's dict literal (`passportNumber` first,
inside the `credentialSubject.id` f-string; its second access returns the
same value and is dropped here). -/
def create_signed_vc (tourist_data : List (String × String))
    (issuer_private_key : Ed25519PrivateKey) (issuer_did verification_method : String)
    (issuanceDate proofCreated : String) : Except PyError Json := do
  let passportNumber ← dictGet tourist_data "passportNumber"
  let name ← dictGet tourist_data "name"
  let nationality ← dictGet tourist_data "nationality"
  let emergencyContact ← dictGet tourist_data "emergencyContact"
  let bloodType ← dictGet tourist_data "bloodType"
  let insurancePolicyId ← dictGet tourist_data "insurancePolicyId"
  let payload_entries := build_payload_entries issuer_did issuanceDate passportNumber
    name nationality emergencyContact bloodType insurancePolicyId
  pure (.obj (payload_entries ++ [("proof", .obj (proof_entries_of issuer_private_key
    verification_method proofCreated (.obj payload_entries)))]))

/-- `issue_tourist_credential` (cred2.py lines 87-107): generate the issuer
identity and sign.  The orchestrator's broad re-raise wraps any error in a
generic exception; the error case is passed through here. -/
def issue_tourist_credential (tourist_data : List (String × String))
    (key : Ed25519PrivateKey) (issuanceDate proofCreated : String) :
    Except PyError Json :=
  let gen := generate_issuer_id key
  create_signed_vc tourist_data gen.1 gen.2.1 gen.2.2 issuanceDate proofCreated

/-- Python `str.split(sep)` for a single-character separator: every occurrence
splits, empty segments kept, result never empty. -/
def splitOnChar (sep : Char) : List Char → List (List Char)
  | [] => [[]]
  | c :: r =>
      if c = sep then [] :: splitOnChar sep r
      else
        match splitOnChar sep r with
        | [] => [[c]]
        | g :: gs => (c :: g) :: gs

/-- Python `list[-1]` on a split result (which is never empty). -/
def lastPart (l : List (List Char)) : List Char := l.getLastD []

/-- Python truthiness of the document values that can appear as a proof:
empty strings, empty containers and `False` are falsy. -/
def truthy : Json → Bool
  | .str s => !s.data.isEmpty
  | .bool b => b
  | .arr xs => !xs.isEmpty
  | .obj es => !es.isEmpty

/-- `vc_json.pop("proof")` (verification_enginee.py line 21): on a dict with
the key present, the value together with the mutated dict; otherwise `none`
(a `KeyError`, or an `AttributeError` on a non-dict, both swallowed by the
function's catch-all). -/
def popProof : Json → Option (Json × Json)
  | .obj es =>
      match alookup "proof" es with
      | some prf => some (prf, .obj (eraseKey "proof" es))
      | none => none
  | _ => none

/-- Steps 2-6 of `verify_vc_signature` (verification_enginee.py lines 26-48),
after the proof has been popped: `none` models a raised-and-caught exception,
`some b` the value of the final cryptographic check (or the early falsy-proof
return).  The middle segment of the detached JWS is bound to `_` by the
source and never inspected. -/
def verify_sig_steps (prf rest : Json) : Option Bool :=
  if truthy prf = false then some false
  else
    match prf with
    | .obj pes =>
        match alookup "verificationMethod" pes with
        | some (.str vm) =>
            let did_key_identifier := lastPart (splitOnChar '#' vm.data)
            match b58decode did_key_identifier with
            | some prefixed_public_bytes =>
                let public_key_bytes := prefixed_public_bytes.drop 2
                if public_key_bytes.length = 32 then
                  match alookup "jws" pes with
                  | some (.str jws) =>
                      match splitOnChar '.' jws.data with
                      | [encoded_header, _, encoded_signature] =>
                          let payload_bytes := canonical_bytes rest
                          let signing_input :=
                            utf8Encode encoded_header ++ Char.toNat '.' :: payload_bytes
                          match b64decodePy (encoded_signature ++ ['=', '=']) with
                          | some decoded_signature =>
                              some (ed25519_verify public_key_bytes decoded_signature
                                signing_input)
                          | none => none
                      | _ => none
                  | _ => none
                else none
            | none => none
        | _ => none
    | _ => none

/-- `verify_vc_signature` (verification_enginee.py lines 14-58), with the
mutation of its argument made explicit: the result is the returned boolean
paired with the state of the caller's document after the call (`pop`
removes the proof member before any check can fail). -/
def verify_vc_signature_run (vc : Json) : Bool × Json :=
  match popProof vc with
  | none => (false, vc)
  | some (prf, rest) => ((verify_sig_steps prf rest).getD false, rest)

/-- The boolean result of `verify_vc_signature`. -/
def verify_vc_signature (vc : Json) : Bool := (verify_vc_signature_run vc).1

/-- The anchor digest computed by `anchor_vc` (cred2.py lines 137-140):
`sha256(json.dumps(json.loads(vc_string), separators=(',', ':'),
sort_keys=True).encode('utf-8'))`, over the full credential it receives —
proof included, since `main`/the API anchor the final signed credential.
`json.loads` is an injection from the wire string to the document, so the
digest is computed here from the parsed document. -/
def anchor_vc_fingerprint (vc_json : Json) : Sha256Digest :=
  sha256 (utf8Encode (json_dumps_sorted vc_json))

/-- The anchor digest recomputed by `verify_anchor` (verification_enginee.py
lines 81-84), character-for-character the same computation as
`anchor_vc_fingerprint`, again over the full parsed credential. -/
def verify_anchor_fingerprint (vc_json : Json) : Sha256Digest :=
  sha256 (utf8Encode (json_dumps_sorted vc_json))

/-! ### Concrete sample inputs and the documents derived from them -/

def sample_tourist_data : List (String × String) := [
  ("name", "Priya Sharma"),
  ("nationality", "British"),
  ("passportNumber", "G987654321"),
  ("emergencyContact", "+44 20 7946 0999"),
  ("bloodType", "O+"),
  ("insurancePolicyId", "INS-AETNA-5588-XYZ")]

def sample_key : Ed25519PrivateKey := ⟨123456789⟩

def sampleVC : Json :=
  match issue_tourist_credential sample_tourist_data sample_key
    "2025-01-01T00:00:00" "2025-01-01T00:00:01" with
  | .ok vc => vc
  | .error _ => .bool false

def permadoc1 : Json :=
  .obj [("b", .str "2"), ("a", .obj [("y", .str "1"), ("x", .arr [.str "u"])])]

def permadoc2 : Json :=
  .obj [("a", .obj [("x", .arr [.str "u"]), ("y", .str "1")]), ("b", .str "2")]

/-- Top-level `id` member of a credential document. -/
def docId (vc : Json) : Option Json :=
  match vc with
  | .obj es => alookup "id" es
  | _ => none

def sampleProof : Json :=
  match popProof sampleVC with
  | some (prf, _) => prf
  | none => .bool true

def sampleNoProof : Json :=
  match popProof sampleVC with
  | some (_, rest) => rest
  | none => .bool true

def sampleJwsless : Json :=
  .obj [("x", .str "v"), ("proof", .obj [("type", .str "Ed25519Signature2018")])]

/-- A minimal signed document: one payload member, a genuine proof over it. -/
def tinyPayload : List (String × Json) := [("a", .str "1")]

def tinyProof : Json :=
  .obj (proof_entries_of sample_key (generate_issuer_id sample_key).2.2
    "2025-01-01T00:00:01" (.obj tinyPayload))

def tinyVC : Json := .obj (tinyPayload ++ [("proof", tinyProof)])

/-- The same proof over a payload whose single field was flipped. -/
def tinyMixVC : Json := .obj ([("a", .str "2")] ++ [("proof", tinyProof)])

/-- A proof-free (structurally malformed) document. -/
def tinyNoProof : Json := .obj [("a", .str "3")]

/-! ### Small observables used by the concrete checks -/

/-- Number of members of a top-level object. -/
def topLength (j : Json) : Nat :=
  match j with
  | .obj es => es.length
  | _ => 0

/-- Top-level members of the minimal signed document. -/
def tinyEntries : List (String × Json) := tinyPayload ++ [("proof", tinyProof)]

/-- Replace the (empty) middle segment of a three-segment detached JWS by
`AAAA`. -/
def tamperJwsMiddle (s : String) : String :=
  match splitOnChar '.' s.data with
  | [a, _, t] => String.mk (a ++ '.' :: ('A' :: 'A' :: 'A' :: 'A' :: '.' :: t))
  | _ => s

/-- Rewrite the `jws` member of the proof block of a credential. -/
def setProofJws (f : String → String) (vc : Json) : Json :=
  match vc with
  | .obj es =>
      .obj (es.map (fun e =>
        if e.1 = "proof" then
          (e.1, match e.2 with
            | .obj pes => Json.obj (pes.map (fun p =>
                if p.1 = "jws" then
                  (p.1, match p.2 with
                    | .str s => Json.str (f s)
                    | w => w)
                else p))
            | w => w)
        else e))
  | w => w

def tinyVC_midjws : Json := setProofJws tamperJwsMiddle tinyVC

/-- The middle segment of a credential's detached JWS. -/
def jws_middle_segment (vc : Json) : Option (List Char) :=
  match popProof vc with
  | some (.obj pes, _) =>
      match alookup "jws" pes with
      | some (.str j) =>
          match splitOnChar '.' j.data with
          | [_, m, _] => some m
          | _ => none
      | _ => none
  | _ => none

def sampleBadJws : Json :=
  .obj [("a", .str "1"),
    ("proof", .obj [
      ("verificationMethod", .str "did:key:z#z"),
      ("jws", .str "ab")])]

/-- Success test on the builder's result. -/
def exceptIsOkB {α : Type} : Except PyError α → Bool
  | .ok _ => true
  | .error _ => false

/-- The first required field absent from a record, in the evaluation order of
the source's payload dict literal (`passportNumber` is read first, inside the
`credentialSubject.id` f-string). -/
def firstMissingField (td : List (String × String)) : Option String :=
  if (alookupStr "passportNumber" td).isNone then some "passportNumber"
  else if (alookupStr "name" td).isNone then some "name"
  else if (alookupStr "nationality" td).isNone then some "nationality"
  else if (alookupStr "emergencyContact" td).isNone then some "emergencyContact"
  else if (alookupStr "bloodType" td).isNone then some "bloodType"
  else if (alookupStr "insurancePolicyId" td).isNone then some "insurancePolicyId"
  else none

def sample_tourist_data_emptyblood : List (String × String) := [
  ("name", "Priya Sharma"),
  ("nationality", "British"),
  ("passportNumber", "G987654321"),
  ("emergencyContact", "+44 20 7946 0999"),
  ("bloodType", ""),
  ("insurancePolicyId", "INS-AETNA-5588-XYZ")]

def td_missing_name : List (String × String) := [
  ("passportNumber", "G987654321"),
  ("nationality", "British"),
  ("emergencyContact", "+44 20 7946 0999"),
  ("bloodType", "O+"),
  ("insurancePolicyId", "INS-AETNA-5588-XYZ")]

theorem char_eq_of_toNat {x y : Char} (h : x.toNat = y.toNat) : x = y := by
  have h2 := Char.ofNat_toNat x
  have h3 := Char.ofNat_toNat y
  rw [← h2, ← h3, h]

theorem keyLe_total : ∀ a b : List Char, keyLe a b = true ∨ keyLe b a = true
  | [], _ => Or.inl rfl
  | _ :: _, [] => Or.inr rfl
  | x :: xs, y :: ys => by
      by_cases hxy : x.toNat < y.toNat
      · exact Or.inl (by simp [keyLe, hxy])
      · by_cases hyx : y.toNat < x.toNat
        · exact Or.inr (by simp [keyLe, hyx, hxy])
        · rcases keyLe_total xs ys with h | h
          · exact Or.inl (by simp [keyLe, hxy, hyx, h])
          · exact Or.inr (by simp [keyLe, hxy, hyx, h])

theorem keyLe_antisymm : ∀ a b : List Char,
    keyLe a b = true → keyLe b a = true → a = b
  | [], [], _, _ => rfl
  | [], _ :: _, _, h => by simp [keyLe] at h
  | _ :: _, [], h, _ => by simp [keyLe] at h
  | x :: xs, y :: ys, h1, h2 => by
      by_cases hxy : x.toNat < y.toNat
      · simp [keyLe, hxy, Nat.not_lt_of_lt hxy] at h2
      · by_cases hyx : y.toNat < x.toNat
        · simp [keyLe, hxy, hyx] at h1
        · have hx : x = y := char_eq_of_toNat (by omega)
          subst hx
          simp only [keyLe, Nat.lt_irrefl, if_false] at h1 h2
          rw [keyLe_antisymm xs ys h1 h2]

theorem keyLe_trans : ∀ a b c : List Char,
    keyLe a b = true → keyLe b c = true → keyLe a c = true
  | [], _, _, _, _ => rfl
  | _ :: _, [], _, h, _ => by simp [keyLe] at h
  | _ :: _, _ :: _, [], _, h => by simp [keyLe] at h
  | x :: xs, y :: ys, z :: zs, h1, h2 => by
      simp only [keyLe] at h1 h2 ⊢
      rcases Nat.lt_trichotomy x.toNat y.toNat with hxy | hxy | hxy
      · rcases Nat.lt_trichotomy y.toNat z.toNat with hyz | hyz | hyz
        · simp [show x.toNat < z.toNat by omega]
        · simp [show x.toNat < z.toNat by omega]
        · rw [if_neg (by omega), if_pos (by omega)] at h2
          exact absurd h2 (by simp)
      · rcases Nat.lt_trichotomy y.toNat z.toNat with hyz | hyz | hyz
        · simp [show x.toNat < z.toNat by omega]
        · rw [if_neg (by omega), if_neg (by omega)] at h1
          rw [if_neg (by omega), if_neg (by omega)] at h2
          rw [if_neg (by omega), if_neg (by omega)]
          exact keyLe_trans xs ys zs h1 h2
        · rw [if_neg (by omega), if_pos (by omega)] at h2
          exact absurd h2 (by simp)
      · rw [if_neg (by omega), if_pos (by omega)] at h1
        exact absurd h1 (by simp)

theorem entryLe_total (a b : String × Json) :
    entryLe a b = true ∨ entryLe b a = true := keyLe_total _ _

theorem entryLe_trans {a b c : String × Json}
    (h1 : entryLe a b = true) (h2 : entryLe b c = true) : entryLe a c = true :=
  keyLe_trans _ _ _ h1 h2

theorem keyLe_antisymm_str {a b : String}
    (h1 : keyLe a.data b.data = true) (h2 : keyLe b.data a.data = true) : a = b := by
  cases a; cases b
  exact congrArg String.mk (keyLe_antisymm _ _ h1 h2)

theorem insEntry_perm (a : String × Json) :
    ∀ l : List (String × Json), List.Perm (insEntry a l) (a :: l)
  | [] => List.Perm.refl _
  | b :: bs => by
      by_cases h : entryLe a b
      · simp [insEntry, h]
      · simp only [insEntry, h, if_false, Bool.false_eq_true]
        exact List.Perm.trans ((insEntry_perm a bs).cons b) (List.Perm.swap _ _ _)

theorem sortEntries_perm : ∀ l : List (String × Json), List.Perm (sortEntries l) l
  | [] => List.Perm.refl _
  | a :: as' =>
      List.Perm.trans (insEntry_perm a (sortEntries as'))
        ((sortEntries_perm as').cons a)

theorem insEntry_sorted (a : String × Json) :
    ∀ l : List (String × Json),
      l.Pairwise (fun x y => entryLe x y = true) →
      (insEntry a l).Pairwise (fun x y => entryLe x y = true)
  | [], _ => by simp [insEntry]
  | b :: bs, h => by
      rcases List.pairwise_cons.mp h with ⟨hb, hbs⟩
      by_cases hab : entryLe a b
      · simp only [insEntry, hab, if_true]
        refine List.pairwise_cons.mpr ⟨?_, h⟩
        intro x hx
        rcases List.mem_cons.mp hx with rfl | hx'
        · exact hab
        · exact entryLe_trans hab (hb x hx')
      · have hba : entryLe b a = true := (entryLe_total a b).resolve_left hab
        simp only [insEntry, hab, if_false, Bool.false_eq_true]
        refine List.pairwise_cons.mpr ⟨?_, insEntry_sorted a bs hbs⟩
        intro x hx
        have hmem := (insEntry_perm a bs).mem_iff.mp hx
        rcases List.mem_cons.mp hmem with rfl | hx'
        · exact hba
        · exact hb x hx'

theorem sortEntries_sorted : ∀ l : List (String × Json),
    (sortEntries l).Pairwise (fun x y => entryLe x y = true)
  | [] => by simp [sortEntries]
  | a :: as' => insEntry_sorted a (sortEntries as') (sortEntries_sorted as')

/-- Mapping a function over the values does not disturb a key-directed insert. -/
theorem insEntry_map_snd (f : Json → Json) (k : String) (v : Json) :
    ∀ l : List (String × Json),
      insEntry (k, f v) (l.map (fun e => (e.1, f e.2)))
        = (insEntry (k, v) l).map (fun e => (e.1, f e.2))
  | [] => rfl
  | (k2, v2) :: es => by
      simp only [List.map_cons, insEntry, entryLe]
      by_cases h : keyLe k.data k2.data
      · simp [h]
      · simp [h, insEntry_map_snd f k v es]

/-- Sorting commutes with mapping a function over the values. -/
theorem sortEntries_map_snd (f : Json → Json) :
    ∀ l : List (String × Json),
      sortEntries (l.map (fun e => (e.1, f e.2)))
        = (sortEntries l).map (fun e => (e.1, f e.2))
  | [] => rfl
  | (k, v) :: es => by
      simp only [List.map_cons, sortEntries, sortEntries_map_snd f es]
      exact insEntry_map_snd f k v (sortEntries es)

theorem keyLe_refl : ∀ a : List Char, keyLe a a = true
  | [] => rfl
  | x :: xs => by simp [keyLe, keyLe_refl xs]

theorem nodupKeysB_iff : ∀ l : List (String × Json),
    nodupKeysB l = true ↔ (keysOf l).Nodup
  | [] => by simp [nodupKeysB, keysOf]
  | (k, v) :: es => by
      simp [nodupKeysB, keysOf, nodupKeysB_iff es, List.nodup_cons]

theorem alookup_eq_none_iff (k : String) : ∀ l : List (String × Json),
    alookup k l = none ↔ k ∉ keysOf l
  | [] => by simp [alookup, keysOf]
  | (k2, v) :: es => by
      by_cases h : k2 = k
      · subst h
        simp [alookup, keysOf]
      · simp [alookup, keysOf, h, alookup_eq_none_iff k es, Ne.symm h]

theorem mem_keys_of_alookup {k : String} {v : Json} :
    ∀ {l : List (String × Json)}, alookup k l = some v → k ∈ keysOf l := by
  intro l h
  by_contra hk
  rw [← alookup_eq_none_iff k l] at hk
  rw [hk] at h
  cases h

theorem alookup_eq_of_perm (k : String) :
    ∀ {l1 l2 : List (String × Json)}, List.Perm l1 l2 →
      (keysOf l1).Nodup → alookup k l1 = alookup k l2 := by
  intro l1 l2 h
  induction h with
  | nil => intro _; rfl
  | cons x _ ih =>
      intro hn
      obtain ⟨kx, vx⟩ := x
      by_cases hk : kx = k
      · simp [alookup, hk]
      · simp only [alookup, hk, if_false]
        exact ih (by simpa [keysOf] using (List.nodup_cons.mp (by simpa [keysOf] using hn)).2)
  | swap x y t =>
      intro hn
      obtain ⟨kx, vx⟩ := x
      obtain ⟨ky, vy⟩ := y
      have hxy : ky ≠ kx := by
        simp only [keysOf, List.map_cons, List.nodup_cons, List.mem_cons] at hn
        exact fun h => hn.1 (Or.inl h)
      by_cases h1 : kx = k
      · subst h1
        simp [alookup, hxy]
      · by_cases h2 : ky = k
        · subst h2
          simp [alookup, h1]
        · simp [alookup, h1, h2]
  | trans h12 h23 ih12 ih23 =>
      intro hn
      rw [ih12 hn]
      exact ih23 (((h12.map Prod.fst).nodup_iff).mp hn)

theorem alookup_sortEntries (k : String) {l : List (String × Json)}
    (hn : (keysOf l).Nodup) : alookup k (sortEntries l) = alookup k l :=
  alookup_eq_of_perm k (sortEntries_perm l)
    (((sortEntries_perm l).map Prod.fst).nodup_iff.mpr hn)

theorem keysOf_sortEntries_nodup {l : List (String × Json)}
    (hn : (keysOf l).Nodup) : (keysOf (sortEntries l)).Nodup :=
  ((sortEntries_perm l).map Prod.fst).nodup_iff.mpr hn

/-- Two key-sorted, duplicate-free entry lists with the same lookup function
are identical.  The uniqueness half of canonical object ordering. -/
theorem entries_ext_of_sorted :
    ∀ l1 l2 : List (String × Json),
      l1.Pairwise (fun x y => entryLe x y = true) →
      l2.Pairwise (fun x y => entryLe x y = true) →
      (keysOf l1).Nodup → (keysOf l2).Nodup →
      (∀ k, alookup k l1 = alookup k l2) → l1 = l2
  | [], [], _, _, _, _, _ => rfl
  | [], (k2, v2) :: t2, _, _, _, _, hl => by
      have h := hl k2
      simp [alookup] at h
  | (k1, v1) :: t1, [], _, _, _, _, hl => by
      have h := hl k1
      simp [alookup] at h
  | (k1, v1) :: t1, (k2, v2) :: t2, hs1, hs2, hn1, hn2, hl => by
      rcases List.pairwise_cons.mp hs1 with ⟨hmin1, hs1t⟩
      rcases List.pairwise_cons.mp hs2 with ⟨hmin2, hs2t⟩
      have hk1 : alookup k1 ((k2, v2) :: t2) = some v1 := by
        rw [← hl k1]; simp [alookup]
      have hk2 : alookup k2 ((k1, v1) :: t1) = some v2 := by
        rw [hl k2]; simp [alookup]
      have hm1 : k1 ∈ keysOf ((k2, v2) :: t2) := mem_keys_of_alookup hk1
      have hm2 : k2 ∈ keysOf ((k1, v1) :: t1) := mem_keys_of_alookup hk2
      have hle21 : keyLe k2.data k1.data = true := by
        simp only [keysOf, List.map_cons, List.mem_cons] at hm1
        rcases hm1 with rfl | hm1
        · exact keyLe_refl _
        · rcases List.mem_map.mp hm1 with ⟨e, he, rfl⟩
          exact hmin2 e he
      have hle12 : keyLe k1.data k2.data = true := by
        simp only [keysOf, List.map_cons, List.mem_cons] at hm2
        rcases hm2 with rfl | hm2
        · exact keyLe_refl _
        · rcases List.mem_map.mp hm2 with ⟨e, he, rfl⟩
          exact hmin1 e he
      have hk : k1 = k2 := keyLe_antisymm_str hle12 hle21
      subst hk
      have hv : v1 = v2 := by
        have := hk1
        simp [alookup] at this
        exact this.symm
      subst hv
      have hn1t : (keysOf t1).Nodup := (List.nodup_cons.mp (by simpa [keysOf] using hn1)).2
      have hn2t : (keysOf t2).Nodup := (List.nodup_cons.mp (by simpa [keysOf] using hn2)).2
      have hnm1 : k1 ∉ keysOf t1 := (List.nodup_cons.mp (by simpa [keysOf] using hn1)).1
      have hnm2 : k1 ∉ keysOf t2 := (List.nodup_cons.mp (by simpa [keysOf] using hn2)).1
      have htl : ∀ k, alookup k t1 = alookup k t2 := by
        intro k
        by_cases hk : k = k1
        · subst hk
          rw [(alookup_eq_none_iff k t1).mpr hnm1, (alookup_eq_none_iff k t2).mpr hnm2]
        · have := hl k
          simpa [alookup, fun h => hk (h : k1 = k).symm, show k1 ≠ k from fun h => hk h.symm] using hl k
      rw [entries_ext_of_sorted t1 t2 hs1t hs2t hn1t hn2t htl]

theorem sortDocEntries_eq_map : ∀ es : List (String × Json),
    sortDocEntries es = es.map (fun e => (e.1, sortDoc e.2))
  | [] => rfl
  | (k, v) :: es => by simp [sortDocEntries, sortDocEntries_eq_map es]

theorem keysOf_sortDocEntries (es : List (String × Json)) :
    keysOf (sortDocEntries es) = keysOf es := by
  simp [sortDocEntries_eq_map, keysOf]

theorem alookup_sortDocEntries (k : String) : ∀ es : List (String × Json),
    alookup k (sortDocEntries es) = (alookup k es).map sortDoc
  | [] => rfl
  | (k2, v) :: es => by
      by_cases h : k2 = k
      · simp [sortDocEntries, alookup, h]
      · simp [sortDocEntries, alookup, h, alookup_sortDocEntries k es]

theorem wf_obj_nodup {es : List (String × Json)} (h : (Json.obj es).wf = true) :
    (keysOf es).Nodup := by
  simp only [Json.wf, Bool.and_eq_true] at h
  exact (nodupKeysB_iff es).mp h.1

theorem wf_obj_entries {es : List (String × Json)} (h : (Json.obj es).wf = true) :
    wfEntries es = true := by
  simp only [Json.wf, Bool.and_eq_true] at h
  exact h.2

theorem wf_of_alookup : ∀ {es : List (String × Json)} {k : String} {v : Json},
    wfEntries es = true → alookup k es = some v → v.wf = true := by
  intro es
  induction es with
  | nil => intro k v _ h; cases h
  | cons e es ih =>
      intro k v hwf hl
      obtain ⟨k2, v2⟩ := e
      simp only [wfEntries, Bool.and_eq_true] at hwf
      by_cases h : k2 = k
      · simp only [alookup, h, if_pos] at hl
        cases hl
        exact hwf.1
      · simp only [alookup, h, if_false] at hl
        exact ih hwf.2 hl

theorem wf_of_mem : ∀ {xs : List Json} {x : Json},
    wfList xs = true → x ∈ xs → x.wf = true := by
  intro xs
  induction xs with
  | nil => intro x _ h; cases h
  | cons y ys ih =>
      intro x hwf hm
      simp only [wfList, Bool.and_eq_true] at hwf
      rcases List.mem_cons.mp hm with rfl | hm'
      · exact hwf.1
      · exact ih hwf.2 hm'

theorem hexDig_ascii : ∀ n, n < 16 → (hexDig n).toNat < 128 := by decide

theorem u4_ascii (n : Nat) : ∀ x ∈ u4 n, x.toNat < 128 := by
  intro x hx
  simp only [u4, List.mem_cons, List.not_mem_nil, or_false] at hx
  rcases hx with rfl | rfl | rfl | rfl | rfl | rfl
  · decide
  · decide
  · exact hexDig_ascii _ (Nat.mod_lt _ (by norm_num))
  · exact hexDig_ascii _ (Nat.mod_lt _ (by norm_num))
  · exact hexDig_ascii _ (Nat.mod_lt _ (by norm_num))
  · exact hexDig_ascii _ (Nat.mod_lt _ (by norm_num))

set_option maxHeartbeats 4000000 in
/-- Exhaustive case analysis of the escape of one character. -/
theorem escChar_cases (c : Char) :
    (c = '"' ∧ escChar c = ['\\', '"']) ∨ (c = '\\' ∧ escChar c = ['\\', '\\']) ∨
    (c.toNat = 8 ∧ escChar c = ['\\', 'b']) ∨ (c.toNat = 12 ∧ escChar c = ['\\', 'f']) ∨
    (c = '\n' ∧ escChar c = ['\\', 'n']) ∨ (c = '\r' ∧ escChar c = ['\\', 'r']) ∨
    (c = '\t' ∧ escChar c = ['\\', 't']) ∨ (escChar c = u4 c.toNat ∧ c.toNat < 65536) ∨
    (escChar c = [c] ∧ 32 ≤ c.toNat ∧ c.toNat < 127 ∧ c ≠ '"' ∧ c ≠ '\\') ∨
    (escChar c = u4 (55296 + (c.toNat - 65536) / 1024)
        ++ u4 (56320 + (c.toNat - 65536) % 1024) ∧ 65536 ≤ c.toNat) := by
  unfold escChar
  split_ifs with h1 h2 h3 h4 h5 h6 h7 h8 h9 h10
  · exact Or.inl ⟨h1, rfl⟩
  · exact Or.inr (Or.inl ⟨h2, rfl⟩)
  · exact Or.inr (Or.inr (Or.inl ⟨h3, rfl⟩))
  · exact Or.inr (Or.inr (Or.inr (Or.inl ⟨h4, rfl⟩)))
  · exact Or.inr (Or.inr (Or.inr (Or.inr (Or.inl ⟨h5, rfl⟩))))
  · exact Or.inr (Or.inr (Or.inr (Or.inr (Or.inr (Or.inl ⟨h6, rfl⟩)))))
  · exact Or.inr (Or.inr (Or.inr (Or.inr (Or.inr (Or.inr (Or.inl ⟨h7, rfl⟩))))))
  · exact Or.inr (Or.inr (Or.inr (Or.inr (Or.inr (Or.inr (Or.inr
      (Or.inl ⟨rfl, by omega⟩)))))))
  · exact Or.inr (Or.inr (Or.inr (Or.inr (Or.inr (Or.inr (Or.inr (Or.inr
      (Or.inl ⟨rfl, by omega, by omega, h1, h2⟩))))))))
  · exact Or.inr (Or.inr (Or.inr (Or.inr (Or.inr (Or.inr (Or.inr
      (Or.inl ⟨rfl, by omega⟩)))))))
  · exact Or.inr (Or.inr (Or.inr (Or.inr (Or.inr (Or.inr (Or.inr (Or.inr
      (Or.inr ⟨rfl, by omega⟩))))))))

theorem escChar_ascii (c : Char) : ∀ x ∈ escChar c, x.toNat < 128 := by
  intro x hx
  rcases escChar_cases c with ⟨_, h⟩ | ⟨_, h⟩ | ⟨_, h⟩ | ⟨_, h⟩ | ⟨_, h⟩ | ⟨_, h⟩ |
    ⟨_, h⟩ | ⟨h, _⟩ | ⟨h, h2, h3, _, _⟩ | ⟨h, _⟩ <;> rw [h] at hx
  · simp only [List.mem_cons, List.not_mem_nil, or_false] at hx
    rcases hx with rfl | rfl <;> decide
  · simp only [List.mem_cons, List.not_mem_nil, or_false] at hx
    rcases hx with rfl | rfl <;> decide
  · simp only [List.mem_cons, List.not_mem_nil, or_false] at hx
    rcases hx with rfl | rfl <;> decide
  · simp only [List.mem_cons, List.not_mem_nil, or_false] at hx
    rcases hx with rfl | rfl <;> decide
  · simp only [List.mem_cons, List.not_mem_nil, or_false] at hx
    rcases hx with rfl | rfl <;> decide
  · simp only [List.mem_cons, List.not_mem_nil, or_false] at hx
    rcases hx with rfl | rfl <;> decide
  · simp only [List.mem_cons, List.not_mem_nil, or_false] at hx
    rcases hx with rfl | rfl <;> decide
  · exact u4_ascii _ x hx
  · simp only [List.mem_cons, List.not_mem_nil, or_false] at hx
    subst hx
    omega
  · rcases List.mem_append.mp hx with h' | h'
    · exact u4_ascii _ x h'
    · exact u4_ascii _ x h'

theorem escapeStr_ascii (s : List Char) : ∀ x ∈ escapeStr s, x.toNat < 128 := by
  intro x hx
  rcases List.mem_flatMap.mp hx with ⟨c, _, hc⟩
  exact escChar_ascii c x hc

theorem renderStr_ascii (s : String) : ∀ x ∈ renderStr s, x.toNat < 128 := by
  intro x hx
  simp only [renderStr, List.mem_cons, List.mem_append, List.not_mem_nil, or_false] at hx
  rcases hx with rfl | hx | rfl
  · decide
  · exact escapeStr_ascii _ x hx
  · decide

mutual
theorem render_ascii : ∀ v : Json, ∀ x ∈ render v, x.toNat < 128
  | .str s => renderStr_ascii s
  | .bool true => by intro x hx; fin_cases hx <;> decide
  | .bool false => by intro x hx; fin_cases hx <;> decide
  | .arr xs => by
      intro x hx
      simp only [render, List.mem_cons, List.mem_append, List.not_mem_nil, or_false] at hx
      rcases hx with rfl | hx | rfl
      · decide
      · exact renderItems_ascii xs x hx
      · decide
  | .obj es => by
      intro x hx
      simp only [render, List.mem_cons, List.mem_append, List.not_mem_nil, or_false] at hx
      rcases hx with rfl | hx | rfl
      · decide
      · exact renderFields_ascii es x hx
      · decide
theorem renderItems_ascii : ∀ xs : List Json, ∀ x ∈ renderItems xs, x.toNat < 128
  | [] => by intro x hx; cases hx
  | [v] => by
      intro x hx
      exact render_ascii v x hx
  | v :: w :: xs => by
      intro x hx
      simp only [renderItems, List.mem_append, List.mem_cons] at hx
      rcases hx with hx | rfl | hx
      · exact render_ascii v x hx
      · decide
      · exact renderItems_ascii (w :: xs) x hx
theorem renderFields_ascii : ∀ es : List (String × Json), ∀ x ∈ renderFields es, x.toNat < 128
  | [] => by intro x hx; cases hx
  | [(k, v)] => by
      intro x hx
      simp only [renderFields, List.mem_append, List.mem_cons] at hx
      rcases hx with hx | rfl | hx
      · exact renderStr_ascii k x hx
      · decide
      · exact render_ascii v x hx
  | (k, v) :: e :: es => by
      intro x hx
      simp only [renderFields, List.mem_append, List.mem_cons] at hx
      rcases hx with (hx | rfl | hx) | rfl | hx
      · exact renderStr_ascii k x hx
      · decide
      · exact render_ascii v x hx
      · decide
      · exact renderFields_ascii (e :: es) x hx
end

theorem utf8Char_of_ascii {c : Char} (h : c.toNat < 128) : utf8Char c = [c.toNat] := by
  simp [utf8Char, h]

theorem utf8Encode_inj_ascii : ∀ s1 s2 : List Char,
    (∀ c ∈ s1, c.toNat < 128) → (∀ c ∈ s2, c.toNat < 128) →
    utf8Encode s1 = utf8Encode s2 → s1 = s2
  | [], [], _, _, _ => rfl
  | [], c :: s2, _, h2, h => by
      rw [utf8Encode, utf8Encode, List.flatMap_nil, List.flatMap_cons,
        utf8Char_of_ascii (h2 c (by simp))] at h
      cases h
  | c :: s1, [], h1, _, h => by
      rw [utf8Encode, utf8Encode, List.flatMap_nil, List.flatMap_cons,
        utf8Char_of_ascii (h1 c (by simp))] at h
      cases h
  | c1 :: s1, c2 :: s2, h1, h2, h => by
      rw [utf8Encode, List.flatMap_cons, utf8Char_of_ascii (h1 c1 (by simp)),
        utf8Encode, List.flatMap_cons, utf8Char_of_ascii (h2 c2 (by simp))] at h
      simp only [List.cons_append, List.nil_append, List.cons.injEq] at h
      rw [char_eq_of_toNat h.1,
        utf8Encode_inj_ascii s1 s2 (fun c hc => h1 c (by simp [hc]))
          (fun c hc => h2 c (by simp [hc])) h.2]

/-- Valid Unicode scalar values avoid the surrogate block. -/
theorem char_not_surrogate (c : Char) :
    c.toNat < 55296 ∨ (57343 < c.toNat ∧ c.toNat < 1114112) := by
  have h := c.valid
  simp only [UInt32.isValidChar, Nat.isValidChar] at h
  exact h

theorem hexVal_hexDig : ∀ n, n < 16 → hexVal (hexDig n) = some n := by decide

theorem hex4_u4 {n : Nat} (h : n < 65536) :
    hex4 (hexDig (n / 4096 % 16)) (hexDig (n / 256 % 16)) (hexDig (n / 16 % 16))
      (hexDig (n % 16)) = some n := by
  simp only [hex4, hexVal_hexDig (n / 4096 % 16) (Nat.mod_lt _ (by norm_num)),
    hexVal_hexDig (n / 256 % 16) (Nat.mod_lt _ (by norm_num)),
    hexVal_hexDig (n / 16 % 16) (Nat.mod_lt _ (by norm_num)),
    hexVal_hexDig (n % 16) (Nat.mod_lt _ (by norm_num)), Option.some.injEq]
  omega

theorem decodeStrBody_u4_step {n : Nat} (hlt : n < 65536)
    (hns : n < 55296 ∨ 56319 < n) (t : List Char) :
    decodeStrBody (u4 n ++ t)
      = (decodeStrBody t).map (fun p => (Char.ofNat n :: p.1, p.2)) := by
  simp only [u4, List.cons_append, List.nil_append]
  rw [decodeStrBody]
  simp only [hex4_u4 hlt]
  rw [if_neg (by omega)]

theorem decodeStrBody_surrogate_step {n : Nat} (hge : 65536 ≤ n) (hlt : n < 1114112)
    (t : List Char) :
    decodeStrBody (u4 (55296 + (n - 65536) / 1024) ++ u4 (56320 + (n - 65536) % 1024) ++ t)
      = (decodeStrBody t).map (fun p => (Char.ofNat n :: p.1, p.2)) := by
  simp only [u4, List.cons_append, List.nil_append]
  rw [decodeStrBody]
  rw [hex4_u4 (by omega)]
  simp only []
  rw [if_pos (by constructor <;> omega)]
  rw [hex4_u4 (by omega)]
  simp only []
  rw [if_pos (by constructor <;> omega)]
  have harith : 65536 + (55296 + (n - 65536) / 1024 - 55296) * 1024
      + (56320 + (n - 65536) % 1024 - 56320) = n := by omega
  rw [harith]

theorem decodeStrBody_escChar (c : Char) (t : List Char) :
    decodeStrBody (escChar c ++ t) = (decodeStrBody t).map (fun p => (c :: p.1, p.2)) := by
  rcases escChar_cases c with ⟨hc, h⟩ | ⟨hc, h⟩ | ⟨hc, h⟩ | ⟨hc, h⟩ | ⟨hc, h⟩ | ⟨hc, h⟩ |
    ⟨hc, h⟩ | ⟨h, hlt⟩ | ⟨h, h32, h127, hq, hbs⟩ | ⟨h, hge⟩
  · subst hc
    rw [h]
    simp only [List.cons_append, List.nil_append]
    rw [decodeStrBody]
    · rfl
    · intro a b c d r hcontra
      exact absurd hcontra (by decide)
  · subst hc
    rw [h]
    simp only [List.cons_append, List.nil_append]
    rw [decodeStrBody]
    · rfl
    · intro a b c d r hcontra
      exact absurd hcontra (by decide)
  · have hc' : c = Char.ofNat 8 := char_eq_of_toNat (by rw [hc]; decide)
    subst hc'
    rw [h]
    simp only [List.cons_append, List.nil_append]
    rw [decodeStrBody]
    · rfl
    · intro a b c d r hcontra
      exact absurd hcontra (by decide)
  · have hc' : c = Char.ofNat 12 := char_eq_of_toNat (by rw [hc]; decide)
    subst hc'
    rw [h]
    simp only [List.cons_append, List.nil_append]
    rw [decodeStrBody]
    · rfl
    · intro a b c d r hcontra
      exact absurd hcontra (by decide)
  · subst hc
    rw [h]
    simp only [List.cons_append, List.nil_append]
    rw [decodeStrBody]
    · rfl
    · intro a b c d r hcontra
      exact absurd hcontra (by decide)
  · subst hc
    rw [h]
    simp only [List.cons_append, List.nil_append]
    rw [decodeStrBody]
    · rfl
    · intro a b c d r hcontra
      exact absurd hcontra (by decide)
  · subst hc
    rw [h]
    simp only [List.cons_append, List.nil_append]
    rw [decodeStrBody]
    · rfl
    · intro a b c d r hcontra
      exact absurd hcontra (by decide)
  · rw [h]
    have hns := char_not_surrogate c
    rw [decodeStrBody_u4_step hlt (by omega) t, Char.ofNat_toNat]
  · rw [h]
    simp only [List.cons_append, List.nil_append]
    rw [decodeStrBody]
    all_goals intros
    all_goals
      first
        | rfl
        | exact absurd (by assumption : c = '"') hq
        | exact absurd (by assumption : c = '\\') hbs
  · rw [h]
    have hns := char_not_surrogate c
    rw [decodeStrBody_surrogate_step hge (by omega) t, Char.ofNat_toNat]

theorem decodeStrBody_escape : ∀ s t : List Char,
    decodeStrBody (escapeStr s ++ '"' :: t) = some (s, t)
  | [], t => rfl
  | c :: s, t => by
      simp only [escapeStr, List.flatMap_cons, List.append_assoc]
      rw [decodeStrBody_escChar]
      have ih := decodeStrBody_escape s t
      simp only [escapeStr] at ih
      rw [ih]
      rfl

theorem render_head : ∀ v : Json, ∃ c cs, render v = c :: cs ∧
    c ≠ ']' ∧ c ≠ ',' ∧ c ≠ ':' ∧ c ≠ '}'
  | .str s => ⟨'"', _, rfl, by decide, by decide, by decide, by decide⟩
  | .bool true => ⟨'t', _, rfl, by decide, by decide, by decide, by decide⟩
  | .bool false => ⟨'f', _, rfl, by decide, by decide, by decide, by decide⟩
  | .arr xs => ⟨'[', _, rfl, by decide, by decide, by decide, by decide⟩
  | .obj es => ⟨'{', _, rfl, by decide, by decide, by decide, by decide⟩

theorem parseVal_arr_cons (fuel : Nat) (c : Char) (t : List Char) (h : c ≠ ']') :
    parseVal (fuel + 1) ('[' :: c :: t)
      = (parseItems fuel (c :: t)).map (fun p => (Json.arr p.1, p.2)) := by
  rw [parseVal]
  all_goals intros
  all_goals first
    | rfl
    | simp_all

theorem parseVal_obj_cons (fuel : Nat) (c : Char) (t : List Char) (h : c ≠ '}') :
    parseVal (fuel + 1) ('{' :: c :: t)
      = (parseFields fuel (c :: t)).map (fun p => (Json.obj p.1, p.2)) := by
  rw [parseVal]
  all_goals intros
  all_goals first
    | rfl
    | simp_all

theorem renderItems_cons_shape : ∀ (x : Json) (xs : List Json),
    ∃ u, renderItems (x :: xs) = render x ++ u
  | x, [] => ⟨[], by simp [renderItems]⟩
  | x, y :: ys => ⟨',' :: renderItems (y :: ys), rfl⟩

mutual
theorem parse_render : ∀ (v : Json) (fuel : Nat) (t : List Char),
    (render v).length < fuel →
    parseVal fuel (render v ++ t) = some (v, t)
  | .str s, fuel, t, hf => by
      cases fuel with
      | zero => exact absurd hf (Nat.not_lt_zero _)
      | succ f =>
          have hsh : render (.str s) ++ t = '"' :: (escapeStr s.data ++ '"' :: t) := by
            simp [render, renderStr]
          rw [hsh, parseVal, decodeStrBody_escape]
          rfl
  | .bool true, fuel, t, hf => by
      cases fuel with
      | zero => exact absurd hf (Nat.not_lt_zero _)
      | succ f => rfl
  | .bool false, fuel, t, hf => by
      cases fuel with
      | zero => exact absurd hf (Nat.not_lt_zero _)
      | succ f => rfl
  | .arr [], fuel, t, hf => by
      cases fuel with
      | zero => exact absurd hf (Nat.not_lt_zero _)
      | succ f => rfl
  | .arr (x :: xs), fuel, t, hf => by
      cases fuel with
      | zero => exact absurd hf (Nat.not_lt_zero _)
      | succ f =>
          obtain ⟨c, cs, hh, hne, _, _, _⟩ := render_head x
          obtain ⟨u, hu⟩ := renderItems_cons_shape x xs
          have hrl : render (Json.arr (x :: xs)) = '[' :: (renderItems (x :: xs) ++ [']']) := rfl
          have hflen : (renderItems (x :: xs)).length + 2 < f + 1 := by
            rw [hrl] at hf
            simp only [List.length_cons, List.length_append] at hf
            omega
          have harr : render (Json.arr (x :: xs)) ++ t
              = '[' :: (renderItems (x :: xs) ++ ']' :: t) := by
            rw [hrl]
            simp
          have hshape : renderItems (x :: xs) ++ ']' :: t = c :: (cs ++ u ++ ']' :: t) := by
            rw [hu, hh]
            simp
          rw [harr, hshape, parseVal_arr_cons f c _ hne, ← hshape]
          simp only [parse_renderItems x xs f t (by omega)]
          rfl
  | .obj [], fuel, t, hf => by
      cases fuel with
      | zero => exact absurd hf (Nat.not_lt_zero _)
      | succ f => rfl
  | .obj ((k, v) :: es), fuel, t, hf => by
      cases fuel with
      | zero => exact absurd hf (Nat.not_lt_zero _)
      | succ f =>
          have hrl : render (Json.obj ((k, v) :: es))
              = '{' :: (renderFields ((k, v) :: es) ++ ['}']) := rfl
          have hflen : (renderFields ((k, v) :: es)).length + 2 < f + 1 := by
            rw [hrl] at hf
            simp only [List.length_cons, List.length_append] at hf
            omega
          have hobj : render (Json.obj ((k, v) :: es)) ++ t
              = '{' :: (renderFields ((k, v) :: es) ++ '}' :: t) := by
            rw [hrl]
            simp
          have hshape : ∃ w, renderFields ((k, v) :: es) ++ '}' :: t = '"' :: w := by
            cases es with
            | nil =>
                exact ⟨escapeStr k.data ++ '"' :: ':' :: (render v ++ '}' :: t),
                  by simp [renderFields, renderStr]⟩
            | cons e es' =>
                obtain ⟨k2, v2⟩ := e
                exact ⟨escapeStr k.data ++ '"' :: ':' :: (render v
                    ++ ',' :: (renderFields ((k2, v2) :: es') ++ '}' :: t)),
                  by simp [renderFields, renderStr]⟩
          obtain ⟨w, hw⟩ := hshape
          rw [hobj, hw, parseVal_obj_cons f '"' _ (by decide), ← hw]
          simp only [parse_renderFields k v es f t (by omega)]
          rfl
  termination_by v _ _ _ => sizeOf v
theorem parse_renderItems : ∀ (x : Json) (xs : List Json) (fuel : Nat) (t : List Char),
    (renderItems (x :: xs)).length + 1 < fuel →
    parseItems fuel (renderItems (x :: xs) ++ ']' :: t) = some (x :: xs, t)
  | x, [], fuel, t, hf => by
      cases fuel with
      | zero => exact absurd hf (Nat.not_lt_zero _)
      | succ f =>
          have h1 : renderItems [x] = render x := rfl
          rw [parseItems, h1]
          simp only [parse_render x f (']' :: t) (by rw [h1] at hf; omega)]
  | x, y :: ys, fuel, t, hf => by
      cases fuel with
      | zero => exact absurd hf (Nat.not_lt_zero _)
      | succ f =>
          have hsh : renderItems (x :: y :: ys) ++ ']' :: t
              = render x ++ (',' :: (renderItems (y :: ys) ++ ']' :: t)) := by
            simp [renderItems]
          have hlen : (renderItems (x :: y :: ys)).length
              = (render x).length + 1 + (renderItems (y :: ys)).length := by
            simp [renderItems]
            omega
          rw [parseItems, hsh]
          simp only [parse_render x f _ (by omega), parse_renderItems y ys f t (by omega)]
          rfl
  termination_by x xs _ _ _ => sizeOf x + sizeOf xs
theorem parse_renderFields : ∀ (k : String) (v : Json) (es : List (String × Json))
    (fuel : Nat) (t : List Char),
    (renderFields ((k, v) :: es)).length + 1 < fuel →
    parseFields fuel (renderFields ((k, v) :: es) ++ '}' :: t) = some ((k, v) :: es, t)
  | k, v, [], fuel, t, hf => by
      cases fuel with
      | zero => exact absurd hf (Nat.not_lt_zero _)
      | succ f =>
          have hsh : renderFields [(k, v)] ++ '}' :: t
              = '"' :: (escapeStr k.data ++ '"' :: (':' :: (render v ++ '}' :: t))) := by
            simp [renderFields, renderStr]
          have hlen : (renderFields [(k, v)]).length
              = (renderStr k).length + 1 + (render v).length := by
            simp [renderFields]
            omega
          rw [hsh, parseFields]
          simp only [decodeStrBody_escape, parse_render v f ('}' :: t) (by omega)]
  | k, v, (k2, v2) :: es, fuel, t, hf => by
      cases fuel with
      | zero => exact absurd hf (Nat.not_lt_zero _)
      | succ f =>
          have hsh : renderFields ((k, v) :: (k2, v2) :: es) ++ '}' :: t
              = '"' :: (escapeStr k.data ++ '"' :: (':' :: (render v
                  ++ ',' :: (renderFields ((k2, v2) :: es) ++ '}' :: t)))) := by
            simp [renderFields, renderStr]
          have hlen : (renderFields ((k, v) :: (k2, v2) :: es)).length
              = (renderStr k).length + 1 + (render v).length + 1
                + (renderFields ((k2, v2) :: es)).length := by
            simp [renderFields]
            omega
          rw [hsh, parseFields]
          simp only [decodeStrBody_escape, parse_render v f _ (by omega),
            parse_renderFields k2 v2 es f t (by omega)]
          rfl
  termination_by k v es _ _ _ => sizeOf v + sizeOf es
end

/-- The compact renderer is injective: the parser recovers the document. -/
theorem render_inj {v w : Json} (h : render v = render w) : v = w := by
  have hv := parse_render v ((render v).length + 1) [] (by omega)
  have hw := parse_render w ((render w).length + 1) [] (by omega)
  rw [h] at hv
  rw [hv] at hw
  have h2 := Option.some.inj hw
  exact (Prod.ext_iff.mp h2).1

/-- Equal canonical byte streams force equal sorted documents. -/
theorem canonical_bytes_inj {d1 d2 : Json}
    (h : canonical_bytes d1 = canonical_bytes d2) : sortDoc d1 = sortDoc d2 := by
  have hs : json_dumps_sorted d1 = json_dumps_sorted d2 :=
    utf8Encode_inj_ascii _ _ (render_ascii (sortDoc d1)) (render_ascii (sortDoc d2)) h
  exact render_inj hs

theorem SameDoc.symm {d1 d2 : Json} (h : SameDoc d1 d2) : SameDoc d2 d1 := by
  induction h with
  | str s => exact .str s
  | bool b => exact .bool b
  | arr hlen hval ih => exact .arr hlen.symm (fun i v w h1 h2 => ih i w v h2 h1)
  | obj hdom hval ih =>
      exact .obj (fun k => (hdom k).symm) (fun k v w h1 h2 => ih k w v h2 h1)

theorem SameDoc.trans {d1 d2 : Json} (h12 : SameDoc d1 d2) :
    ∀ {d3 : Json}, SameDoc d2 d3 → SameDoc d1 d3 := by
  induction h12 with
  | str s => exact fun h => h
  | bool b => exact fun h => h
  | arr hlen hval ih =>
      rename_i xs ym
      intro d3 h23
      cases h23 with
      | arr hlen2 hval2 =>
          refine .arr (hlen.trans hlen2) ?_
          intro i v w h1 h3
          obtain ⟨hlt, _⟩ := List.get?_eq_some.mp h1
          have hmid : i < ym.length := by omega
          have hu := List.get?_eq_get hmid
          exact ih i v _ h1 hu (hval2 i _ w hu h3)
  | obj hdom hval ih =>
      rename_i es1 em
      intro d3 h23
      cases h23 with
      | obj hdom2 hval2 =>
          refine .obj (fun k => (hdom k).trans (hdom2 k)) ?_
          intro k v w h1 h3
          have hmid : (alookup k em).isSome = true := by rw [← hdom k, h1]; rfl
          obtain ⟨u, hu⟩ := Option.isSome_iff_exists.mp hmid
          exact ih k v u h1 hu (hval2 k u w hu h3)

theorem sortDocList_eq_map : ∀ xs : List Json, sortDocList xs = xs.map sortDoc
  | [] => rfl
  | x :: xs => by simp [sortDocList, sortDocList_eq_map xs]

mutual
/-- Every well-formed document is the same logical document as its
recursively key-sorted form. -/
theorem sameDoc_sortDoc : ∀ d : Json, d.wf = true → SameDoc d (sortDoc d)
  | .str s, _ => .str s
  | .bool b, _ => .bool b
  | .arr xs, hw => by
      have hmap : sortDoc (Json.arr xs) = Json.arr (xs.map sortDoc) := by
        simp [sortDoc, sortDocList_eq_map]
      rw [hmap]
      refine .arr (by simp) ?_
      intro i v w h1 h2
      rw [List.get?_map, h1] at h2
      cases h2
      exact getSameDoc xs (by simpa [Json.wf] using hw) i v h1
  | .obj es, hw => by
      have hnd : (keysOf es).Nodup := wf_obj_nodup hw
      have hnd2 : (keysOf (sortDocEntries es)).Nodup := by
        rw [keysOf_sortDocEntries]
        exact hnd
      refine SameDoc.obj ?_ ?_
      · intro k
        show (alookup k es).isSome = (alookup k (sortEntries (sortDocEntries es))).isSome
        rw [alookup_sortEntries k hnd2, alookup_sortDocEntries]
        cases alookup k es <;> rfl
      · intro k v w h1 h2
        show SameDoc v w
        rw [alookup_sortEntries k hnd2, alookup_sortDocEntries, h1] at h2
        cases h2
        exact lookupSameDoc es (wf_obj_entries hw) k v h1
theorem getSameDoc : ∀ xs : List Json, wfList xs = true →
    ∀ (i : Nat) (v : Json), xs.get? i = some v → SameDoc v (sortDoc v)
  | [], _, i, v, h => by cases h
  | x :: xs, hw, i, v, h => by
      simp only [wfList, Bool.and_eq_true] at hw
      cases i with
      | zero =>
          cases h
          exact sameDoc_sortDoc x hw.1
      | succ i => exact getSameDoc xs hw.2 i v h
theorem lookupSameDoc : ∀ es : List (String × Json), wfEntries es = true →
    ∀ (k : String) (v : Json), alookup k es = some v → SameDoc v (sortDoc v)
  | [], _, k, v, h => by cases h
  | (k2, v2) :: es, hw, k, v, h => by
      simp only [wfEntries, Bool.and_eq_true] at hw
      by_cases hk : k2 = k
      · rw [alookup, if_pos hk] at h
        cases h
        exact sameDoc_sortDoc v2 hw.1
      · rw [alookup, if_neg hk] at h
        exact lookupSameDoc es hw.2 k v h
end

/-- Same logical documents have equal recursively-sorted forms. -/
theorem sortDoc_eq_of_sameDoc {d1 d2 : Json} (h : SameDoc d1 d2) :
    d1.wf = true → d2.wf = true → sortDoc d1 = sortDoc d2 := by
  induction h with
  | str s => intro _ _; rfl
  | bool b => intro _ _; rfl
  | arr hlen hval ih =>
      intro hw1 hw2
      simp only [sortDoc, sortDocList_eq_map]
      congr 1
      apply List.ext
      intro i
      rw [List.get?_map, List.get?_map]
      rename_i xs ys
      cases h1 : xs.get? i with
      | none =>
          have hxlen : xs.length ≤ i := List.get?_eq_none.mp h1
          rw [List.get?_eq_none.mpr (by omega)]
      | some v =>
          obtain ⟨hlt, _⟩ := List.get?_eq_some.mp h1
          have hlt2 : i < ys.length := by omega
          have h2 := List.get?_eq_get hlt2
          rw [h2]
          simp only [Option.map_some']
          rw [ih i v _ h1 h2
            (wf_of_mem (by simpa [Json.wf] using hw1) (List.get?_mem h1))
            (wf_of_mem (by simpa [Json.wf] using hw2) (List.get?_mem h2))]
  | obj hdom hval ih =>
      intro hw1 hw2
      rename_i es1 es2
      simp only [sortDoc]
      congr 1
      have hnd1 : (keysOf (sortDocEntries es1)).Nodup := by
        rw [keysOf_sortDocEntries]
        exact wf_obj_nodup hw1
      have hnd2 : (keysOf (sortDocEntries es2)).Nodup := by
        rw [keysOf_sortDocEntries]
        exact wf_obj_nodup hw2
      apply entries_ext_of_sorted _ _ (sortEntries_sorted _) (sortEntries_sorted _)
        (keysOf_sortEntries_nodup hnd1) (keysOf_sortEntries_nodup hnd2)
      intro k
      rw [alookup_sortEntries k hnd1, alookup_sortEntries k hnd2,
        alookup_sortDocEntries, alookup_sortDocEntries]
      have hd := hdom k
      cases h1 : alookup k es1 with
      | none =>
          cases h2 : alookup k es2 with
          | none => rfl
          | some w =>
              rw [h1, h2] at hd
              simp at hd
      | some v =>
          cases h2 : alookup k es2 with
          | none =>
              rw [h1, h2] at hd
              simp at hd
          | some w =>
              simp only [Option.map_some']
              rw [ih k v w h1 h2
                (wf_of_alookup (wf_obj_entries hw1) h1)
                (wf_of_alookup (wf_obj_entries hw2) h2)]

/-- The central canonicalization equivalence: for well-formed documents the
canonical bytes agree exactly when the documents are the same logical
document. -/
theorem canonical_bytes_eq_iff {d1 d2 : Json}
    (hw1 : d1.wf = true) (hw2 : d2.wf = true) :
    canonical_bytes d1 = canonical_bytes d2 ↔ SameDoc d1 d2 := by
  constructor
  · intro h
    have hs := canonical_bytes_inj h
    exact ((sameDoc_sortDoc d1 hw1).trans (hs ▸ (sameDoc_sortDoc d2 hw2).symm))
  · intro h
    show utf8Encode (render (sortDoc d1)) = utf8Encode (render (sortDoc d2))
    rw [sortDoc_eq_of_sameDoc h hw1 hw2]

/-- Value of a `Char.ofNat` below the surrogate range. -/
theorem char_toNat_ofNat_of_lt {n : Nat} (h : n < 55296) : (Char.ofNat n).toNat = n := by
  have hv : Nat.isValidChar n := Or.inl h
  simp [Char.ofNat, hv, Char.ofNatAux, Char.toNat, UInt32.toNat, BitVec.toNat_ofNatLt]

theorem digsAux_eq_digs (base : Nat) (hb : 2 ≤ base) : ∀ n fuel, n ≤ fuel →
    digsAux base fuel n = digs base n := by
  intro n
  induction n using Nat.strong_induction_on with
  | _ n ih =>
      intro fuel hf
      match n, fuel with
      | 0, 0 => rfl
      | 0, fuel + 1 => rfl
      | n + 1, fuel + 1 =>
          show digsAux base (fuel + 1) (n + 1) = digsAux base (n + 1) (n + 1)
          rw [digsAux, digsAux, if_neg (Nat.succ_ne_zero n), if_neg (Nat.succ_ne_zero n)]
          have hdiv : (n + 1) / base < n + 1 := Nat.div_lt_self (Nat.succ_pos n) (by omega)
          rw [ih ((n + 1) / base) hdiv fuel (by omega),
            ih ((n + 1) / base) hdiv n (by omega)]

theorem digs_unfold (base : Nat) (hb : 2 ≤ base) (n : Nat) :
    digs base n = if n = 0 then [] else n % base :: digs base (n / base) := by
  match n with
  | 0 => rfl
  | n + 1 =>
      rw [digs, digsAux, if_neg (Nat.succ_ne_zero n), if_neg (Nat.succ_ne_zero n)]
      have hdiv : (n + 1) / base < n + 1 := Nat.div_lt_self (Nat.succ_pos n) (by omega)
      rw [digsAux_eq_digs base hb ((n + 1) / base) n (by omega)]

theorem digs_lt (base : Nat) (hb : 2 ≤ base) : ∀ n, ∀ d ∈ digs base n, d < base := by
  intro n
  induction n using Nat.strong_induction_on with
  | _ n ih =>
      intro d hd
      rw [digs_unfold base hb] at hd
      match n, hd with
      | n + 1, hd =>
          rw [if_neg (Nat.succ_ne_zero n)] at hd
          rcases List.mem_cons.mp hd with rfl | hd'
          · exact Nat.mod_lt _ (by omega)
          · exact ih ((n + 1) / base) (Nat.div_lt_self (Nat.succ_pos n) (by omega)) d hd'

/-- The most significant digit of a positive number is nonzero. -/
theorem digs_reverse_head (base : Nat) (hb : 2 ≤ base) : ∀ n, 0 < n →
    ∃ hd tl, (digs base n).reverse = hd :: tl ∧ hd ≠ 0 ∧ hd < base := by
  intro n
  induction n using Nat.strong_induction_on with
  | _ n ih =>
      intro hn
      rw [digs_unfold base hb, if_neg (by omega)]
      by_cases hq : n / base = 0
      · have hlt : n < base := (Nat.div_eq_zero_iff (by omega)).mp hq
        refine ⟨n % base, [], ?_, ?_, Nat.mod_lt _ (by omega)⟩
        · rw [digs_unfold base hb, hq, if_pos rfl]
          rfl
        · rw [Nat.mod_eq_of_lt hlt]
          omega
      · obtain ⟨hd, tl, heq, hne, hlt⟩ :=
          ih (n / base) (Nat.div_lt_self hn (by omega)) (Nat.pos_of_ne_zero hq)
        exact ⟨hd, tl ++ [n % base], by rw [List.reverse_cons, heq]; rfl, hne, hlt⟩

theorem beDigitsToNat_digs (base : Nat) (hb : 2 ≤ base) : ∀ n,
    beDigitsToNat base (digs base n).reverse = n := by
  intro n
  induction n using Nat.strong_induction_on with
  | _ n ih =>
      match n with
      | 0 => rfl
      | n + 1 =>
          rw [digs_unfold base hb, if_neg (Nat.succ_ne_zero n), List.reverse_cons,
            beDigitsToNat, List.foldl_append,
            ← beDigitsToNat, ih ((n + 1) / base) (Nat.div_lt_self (Nat.succ_pos n) (by omega))]
          show (n + 1) / base * base + (n + 1) % base = n + 1
          have hdm := Nat.div_add_mod (n + 1) base
          rw [Nat.mul_comm] at hdm
          omega

theorem beDigitsToNat_append (base : Nat) (l : List Nat) (x : Nat) :
    beDigitsToNat base (l ++ [x]) = beDigitsToNat base l * base + x := by
  rw [beDigitsToNat, List.foldl_append]
  rfl

theorem beDigitsToNat_pos (h : Nat) (t : List Nat) (hh : h ≠ 0) :
    0 < beDigitsToNat 256 (h :: t) := by
  have grow : ∀ (l : List Nat) (a : Nat),
      a ≤ l.foldl (fun a d => a * 256 + d) a := by
    intro l
    induction l with
    | nil => intro a; exact Nat.le_refl a
    | cons d l ihl =>
        intro a
        calc a ≤ a * 256 + d := by omega
        _ ≤ l.foldl (fun a d => a * 256 + d) (a * 256 + d) := ihl _
  have h1 : h ≤ beDigitsToNat 256 (h :: t) := by
    have := grow t h
    simpa [beDigitsToNat] using this
  omega

/-- Big-endian byte strings with a nonzero leading byte are recovered from
their numeric value. -/
theorem digs_reverse_beBytes : ∀ b : List Nat, (∀ y ∈ b, y < 256) →
    ∀ h t, b = h :: t → h ≠ 0 →
    (digs 256 (beDigitsToNat 256 b)).reverse = b := by
  intro b
  induction b using List.reverseRecOn with
  | nil => intro _ h t heq; cases heq
  | append_singleton b' x ih =>
      intro hall h t heq hne
      cases b' with
      | nil =>
          simp only [List.nil_append, List.cons.injEq] at heq
          obtain ⟨rfl, -⟩ := heq
          have hx : x < 256 := hall x (by simp)
          simp only [List.nil_append]
          rw [show beDigitsToNat 256 [x] = x from by simp [beDigitsToNat],
            digs_unfold 256 (by norm_num), if_neg hne,
            Nat.mod_eq_of_lt hx, Nat.div_eq_of_lt hx,
            digs_unfold 256 (by norm_num), if_pos rfl]
          rfl
      | cons h0 t0 =>
          simp only [List.cons_append, List.cons.injEq] at heq
          obtain ⟨rfl, -⟩ := heq
          have hx : x < 256 := hall x (by simp)
          have hpos : 0 < beDigitsToNat 256 (h0 :: t0) := beDigitsToNat_pos h0 t0 hne
          have hmod : (beDigitsToNat 256 (h0 :: t0) * 256 + x) % 256 = x := by omega
          have hdiv : (beDigitsToNat 256 (h0 :: t0) * 256 + x) / 256
              = beDigitsToNat 256 (h0 :: t0) := by omega
          rw [beDigitsToNat_append, digs_unfold 256 (by norm_num),
            if_neg (by omega), hmod, hdiv, List.reverse_cons,
            ih (fun y hy => hall y (by
              rcases List.mem_cons.mp hy with rfl | hy'
              · exact List.mem_cons_self _ _
              · exact List.mem_cons_of_mem _ (List.mem_append_left _ hy'))) h0 t0 rfl hne]

theorem b58val_b58ch : ∀ d, d < 58 → b58val (b58ch d) = some d := by decide

theorem b58ch_ne_one : ∀ d, d < 58 → d ≠ 0 → b58ch d ≠ '1' := by decide

theorem b58vals_map : ∀ vs : List Nat, (∀ v ∈ vs, v < 58) →
    b58vals (vs.map b58ch) = some vs
  | [], _ => rfl
  | v :: vs, hall => by
      rw [List.map_cons, b58vals, b58val_b58ch v (hall v (by simp)),
        b58vals_map vs (fun y hy => hall y (by simp [hy]))]

/-- Round trip through the base58 codec for byte strings with a nonzero
leading byte (the did:key multicodec bytes always start with 0xed). -/
theorem b58_roundtrip (x : Nat) (r : List Nat) (hx : x ≠ 0)
    (hall : ∀ y ∈ x :: r, y < 256) :
    b58decode (b58encode (x :: r)) = some (x :: r) := by
  have hn : 0 < beDigitsToNat 256 (x :: r) := beDigitsToNat_pos x r hx
  have hlead : countLeadingZeroBytes (x :: r) = 0 := by
    rw [countLeadingZeroBytes, if_neg hx]
  obtain ⟨hd, tl, hrev, hhdne, hhdlt⟩ :=
    digs_reverse_head 58 (by norm_num) (beDigitsToNat 256 (x :: r)) hn
  have hdigs_lt : ∀ v ∈ (digs 58 (beDigitsToNat 256 (x :: r))).reverse, v < 58 := by
    intro v hv
    exact digs_lt 58 (by norm_num) _ v (List.mem_reverse.mp hv)
  have hones : countLeadingOneChars ((digs 58 (beDigitsToNat 256 (x :: r))).reverse.map b58ch)
      = 0 := by
    rw [hrev, List.map_cons, countLeadingOneChars,
      if_neg (b58ch_ne_one hd hhdlt hhdne)]
  rw [b58encode, hlead, List.replicate_zero, List.nil_append]
  simp only [b58decode, b58vals_map _ hdigs_lt, hones, List.replicate_zero,
    List.nil_append, beDigitsToNat_digs 58 (by norm_num),
    digs_reverse_beBytes (x :: r) hall x r rfl hx]

theorem b64val_b64ch : ∀ d, d < 64 → b64val (b64ch d) = some d := by decide

theorem b64ch_ne_eq : ∀ d, b64ch d ≠ '=' := by
  intro d
  unfold b64ch
  split_ifs with h1 h2 h3 h4
  · intro hc
    have := char_toNat_ofNat_of_lt (n := 65 + d) (by omega)
    rw [hc] at this
    simp at this
    omega
  · intro hc
    have := char_toNat_ofNat_of_lt (n := 97 + (d - 26)) (by omega)
    rw [hc] at this
    simp at this
    omega
  · intro hc
    have := char_toNat_ofNat_of_lt (n := 48 + (d - 52)) (by omega)
    rw [hc] at this
    simp at this
    omega
  · decide
  · decide

theorem sixbits_lt : ∀ b : List Nat, (∀ y ∈ b, y < 256) → ∀ v ∈ sixbits b, v < 64
  | [], _ => by intro v hv; cases hv
  | [b0], hall => by
      intro v hv
      have h0 : b0 < 256 := hall b0 (by simp)
      simp only [sixbits, List.mem_cons, List.not_mem_nil, or_false] at hv
      rcases hv with rfl | rfl
      · omega
      · omega
  | [b0, b1], hall => by
      intro v hv
      have h0 : b0 < 256 := hall b0 (by simp)
      have h1 : b1 < 256 := hall b1 (by simp)
      simp only [sixbits, List.mem_cons, List.not_mem_nil, or_false] at hv
      rcases hv with rfl | rfl | rfl
      · omega
      · omega
      · omega
  | b0 :: b1 :: b2 :: rest, hall => by
      intro v hv
      have h0 : b0 < 256 := hall b0 (by simp)
      have h1 : b1 < 256 := hall b1 (by simp)
      have h2 : b2 < 256 := hall b2 (by simp)
      simp only [sixbits, List.mem_cons] at hv
      rcases hv with rfl | rfl | rfl | rfl | h
      · omega
      · omega
      · omega
      · omega
      · exact sixbits_lt rest (fun y hy => hall y (by simp [hy])) v h

theorem b64encPad_shape : ∀ b : List Nat, ∃ p,
    b64encPad b = (sixbits b).map b64ch ++ List.replicate p '='
  | [] => ⟨0, rfl⟩
  | [b0] => ⟨2, rfl⟩
  | [b0, b1] => ⟨1, rfl⟩
  | b0 :: b1 :: b2 :: rest => by
      obtain ⟨p, hp⟩ := b64encPad_shape rest
      refine ⟨p, ?_⟩
      rw [b64encPad, sixbits, hp]
      simp

theorem dropWhile_replicate_append (p : Char → Bool) (a : Char) (hpa : p a = true) :
    ∀ (n : Nat) (l : List Char), (List.replicate n a ++ l).dropWhile p = l.dropWhile p
  | 0, l => by simp
  | n + 1, l => by
      rw [List.replicate_succ, List.cons_append, List.dropWhile_cons_of_pos hpa]
      exact dropWhile_replicate_append p a hpa n l

theorem b64encode_nopad_eq (b : List Nat) :
    b64encode_nopad b = (sixbits b).map b64ch := by
  obtain ⟨p, hp⟩ := b64encPad_shape b
  rw [b64encode_nopad, hp, List.reverse_append, List.reverse_replicate,
    dropWhile_replicate_append _ '=' (by decide)]
  have hnot : ∀ c ∈ ((sixbits b).map b64ch).reverse, ¬ (c = '=') := by
    intro c hc
    rcases List.mem_map.mp (List.mem_reverse.mp hc) with ⟨d, _, rfl⟩
    exact b64ch_ne_eq d
  rw [List.dropWhile_eq_self_iff.mpr ?_, List.reverse_reverse]
  intro hl
  have hmem : ((sixbits b).map b64ch).reverse.get ⟨0, hl⟩
      ∈ ((sixbits b).map b64ch).reverse := List.get_mem _ _ _
  simpa using hnot _ hmem

theorem filterMap_b64val_map : ∀ vs : List Nat, (∀ v ∈ vs, v < 64) →
    (vs.map b64ch).filterMap b64val = vs
  | [], _ => rfl
  | v :: vs, hall => by
      rw [List.map_cons, List.filterMap_cons, b64val_b64ch v (hall v (by simp)),
        filterMap_b64val_map vs (fun y hy => hall y (by simp [hy]))]

theorem quadDecode_sixbits : ∀ b : List Nat, (∀ y ∈ b, y < 256) →
    quadDecode (sixbits b) = some b
  | [], _ => rfl
  | [b0], hall => by
      have h0 : b0 < 256 := hall b0 (by simp)
      show quadDecode [b0 / 4, b0 % 4 * 16] = some [b0]
      rw [quadDecode]
      congr 2
      omega
  | [b0, b1], hall => by
      have h0 : b0 < 256 := hall b0 (by simp)
      have h1 : b1 < 256 := hall b1 (by simp)
      show quadDecode [b0 / 4, b0 % 4 * 16 + b1 / 16, b1 % 16 * 4] = some [b0, b1]
      rw [quadDecode]
      congr 3
      · omega
      · omega
  | b0 :: b1 :: b2 :: rest, hall => by
      have h0 : b0 < 256 := hall b0 (by simp)
      have h1 : b1 < 256 := hall b1 (by simp)
      have h2 : b2 < 256 := hall b2 (by simp)
      have hrest := quadDecode_sixbits rest (fun y hy => hall y (by simp [hy]))
      show quadDecode (b0 / 4 :: (b0 % 4 * 16 + b1 / 16) :: (b1 % 16 * 4 + b2 / 64)
        :: b2 % 64 :: sixbits rest) = some (b0 :: b1 :: b2 :: rest)
      rw [quadDecode, hrest]
      simp only [Option.map_some']
      congr 4
      · omega
      · omega
      · omega

/-- Round trip of the unpadded base64url encoding through the lenient decoder
with the `+ '=='` padding the verifier appends. -/
theorem b64_roundtrip (b : List Nat) (hall : ∀ y ∈ b, y < 256) :
    b64decodePy (b64encode_nopad b ++ ['=', '=']) = some b := by
  rw [b64decodePy, b64encode_nopad_eq, List.filterMap_append,
    filterMap_b64val_map _ (sixbits_lt b hall),
    show List.filterMap b64val ['=', '='] = [] from rfl,
    List.append_nil, quadDecode_sixbits b hall]

theorem natToBytesBE_length (width n : Nat) : (natToBytesBE width n).length = width := by
  simp [natToBytesBE]

theorem natToBytesBE_lt (width n : Nat) : ∀ y ∈ natToBytesBE width n, y < 256 := by
  intro y hy
  simp only [natToBytesBE, List.mem_map] at hy
  obtain ⟨i, -, rfl⟩ := hy
  exact Nat.mod_lt _ (by omega)

theorem utf8Char_lt (c : Char) : ∀ y ∈ utf8Char c, y < 256 := by
  have hc : c.toNat < 1114112 := by rcases char_not_surrogate c with h | ⟨-, h⟩ <;> omega
  intro y hy
  simp only [utf8Char] at hy
  split at hy
  · simp only [List.mem_singleton] at hy; omega
  · split at hy
    · simp only [List.mem_cons, List.not_mem_nil, or_false] at hy
      rcases hy with rfl | rfl <;> omega
    · split at hy
      · simp only [List.mem_cons, List.not_mem_nil, or_false] at hy
        rcases hy with rfl | rfl | rfl <;> omega
      · simp only [List.mem_cons, List.not_mem_nil, or_false] at hy
        rcases hy with rfl | rfl | rfl | rfl <;> omega

theorem utf8Encode_lt (s : List Char) : ∀ y ∈ utf8Encode s, y < 256 := by
  intro y hy
  simp only [utf8Encode, List.mem_flatMap] at hy
  obtain ⟨c, -, hc⟩ := hy
  exact utf8Char_lt c y hc

theorem alookup_append_right {k : String} : ∀ (es : List (String × Json)),
    k ∉ keysOf es → ∀ l, alookup k (es ++ l) = alookup k l
  | [], _, l => rfl
  | (k2, v) :: es, h, l => by
      simp only [keysOf, List.map_cons, List.mem_cons, not_or] at h
      rw [List.cons_append, alookup, if_neg (fun hk => h.1 hk.symm)]
      exact alookup_append_right es h.2 l

theorem eraseKey_append_right {k : String} : ∀ (es : List (String × Json)),
    k ∉ keysOf es → ∀ l, eraseKey k (es ++ l) = es ++ eraseKey k l
  | [], _, l => rfl
  | (k2, v) :: es, h, l => by
      simp only [keysOf, List.map_cons, List.mem_cons, not_or] at h
      rw [List.cons_append, eraseKey, if_neg (fun hk => h.1 hk.symm),
        eraseKey_append_right es h.2 l, List.cons_append]

theorem alookup_append_last {k : String} {v : Json} (es : List (String × Json))
    (h : k ∉ keysOf es) : alookup k (es ++ [(k, v)]) = some v := by
  rw [alookup_append_right es h, alookup, if_pos rfl]

theorem eraseKey_append_last {k : String} {v : Json} (es : List (String × Json))
    (h : k ∉ keysOf es) : eraseKey k (es ++ [(k, v)]) = es := by
  rw [eraseKey_append_right es h, eraseKey, if_pos rfl, List.append_nil]

theorem popProof_append_last {es : List (String × Json)} {prf : Json}
    (h : "proof" ∉ keysOf es) :
    popProof (.obj (es ++ [("proof", prf)])) = some (prf, .obj es) := by
  rw [popProof, alookup_append_last es h]
  show some (prf, Json.obj (eraseKey "proof" (es ++ [("proof", prf)]))) = _
  rw [eraseKey_append_last es h]

theorem splitOnChar_not_mem {sep : Char} : ∀ {l : List Char}, sep ∉ l →
    splitOnChar sep l = [l]
  | [], _ => rfl
  | c :: r, h => by
      simp only [List.mem_cons, not_or] at h
      rw [splitOnChar, if_neg (fun hk => h.1 hk.symm), splitOnChar_not_mem h.2]

theorem splitOnChar_prepend {sep : Char} : ∀ {a : List Char}, sep ∉ a → ∀ b,
    splitOnChar sep (a ++ sep :: b) = a :: splitOnChar sep b
  | [], _, b => by rw [List.nil_append, splitOnChar, if_pos rfl]
  | c :: r, h, b => by
      simp only [List.mem_cons, not_or] at h
      rw [List.cons_append, splitOnChar, if_neg (fun hk => h.1 hk.symm),
        splitOnChar_prepend h.2 b]

theorem splitOnChar_two {sep : Char} {a b : List Char} (ha : sep ∉ a) (hb : sep ∉ b) :
    splitOnChar sep (a ++ sep :: b) = [a, b] := by
  rw [splitOnChar_prepend ha, splitOnChar_not_mem hb]

theorem splitOnChar_three {sep : Char} {a b c : List Char} (ha : sep ∉ a) (hb : sep ∉ b)
    (hc : sep ∉ c) : splitOnChar sep (a ++ sep :: (b ++ sep :: c)) = [a, b, c] := by
  rw [splitOnChar_prepend ha, splitOnChar_two hb hc]

theorem lastPart_pair (a b : List Char) : lastPart [a, b] = b := rfl

/-! ### The base58 and base64url alphabets avoid the separator characters -/

theorem b58ch_ne_hash : ∀ d : Nat, b58ch d ≠ '#' := by
  have hlt : ∀ d, d < 58 → b58ch d ≠ '#' := by decide
  intro d
  by_cases h : d < 58
  · exact hlt d h
  · rw [b58ch, List.getD_eq_default]
    · decide
    · rw [show b58Alphabet.length = 58 from rfl]; omega

theorem hash_not_mem_b58encode (b : List Nat) : '#' ∉ b58encode b := by
  intro hm
  rw [b58encode] at hm
  rcases List.mem_append.mp hm with hm | hm
  · rw [List.mem_replicate] at hm; exact absurd hm.2 (by decide)
  · rcases List.mem_map.mp hm with ⟨d, -, hd⟩
    exact b58ch_ne_hash d hd

theorem b64ch_ne_dot : ∀ d, b64ch d ≠ '.' := by
  intro d
  unfold b64ch
  split_ifs with h1 h2 h3 h4
  · intro hc
    have := char_toNat_ofNat_of_lt (n := 65 + d) (by omega)
    rw [hc] at this
    simp at this
    omega
  · intro hc
    have := char_toNat_ofNat_of_lt (n := 97 + (d - 26)) (by omega)
    rw [hc] at this
    simp at this
    omega
  · intro hc
    have := char_toNat_ofNat_of_lt (n := 48 + (d - 52)) (by omega)
    rw [hc] at this
    simp at this
    omega
  · decide
  · decide

theorem dot_not_mem_b64encode_nopad (b : List Nat) : '.' ∉ b64encode_nopad b := by
  intro hm
  rw [b64encode_nopad_eq] at hm
  rcases List.mem_map.mp hm with ⟨d, -, hd⟩
  exact b64ch_ne_dot d hd

/-! ### Sign-then-verify: an issued credential passes the signature check -/

theorem pref_bytes_lt (key : Ed25519PrivateKey) :
    ∀ y ∈ 237 :: 1 :: ed25519_public_bytes key, y < 256 := by
  intro y hy
  simp only [List.mem_cons] at hy
  rcases hy with rfl | rfl | hy
  · omega
  · omega
  · exact natToBytesBE_lt 32 key.seed y hy

theorem vm_data_eq (key : Ed25519PrivateKey) :
    ((generate_issuer_id key).2.2).data
      = ("did:key:".data ++ b58encode (237 :: 1 :: ed25519_public_bytes key))
        ++ '#' :: b58encode (237 :: 1 :: ed25519_public_bytes key) := by
  show ((("did:key:" ++ String.mk (b58encode (237 :: 1 :: ed25519_public_bytes key)))
      ++ "#") ++ String.mk (b58encode (237 :: 1 :: ed25519_public_bytes key))).data = _
  rw [String.data_append, String.data_append, String.data_append, List.append_assoc]
  rfl

theorem verify_sig_steps_issued (key : Ed25519PrivateKey) (pe : List (String × Json))
    (pc : String) :
    verify_sig_steps
      (.obj (proof_entries_of key (generate_issuer_id key).2.2 pc (.obj pe)))
      (.obj pe) = some true := by
  have hlast : lastPart (splitOnChar '#' ((generate_issuer_id key).2.2).data)
      = b58encode (237 :: 1 :: ed25519_public_bytes key) := by
    rw [vm_data_eq key, splitOnChar_two ?ha (hash_not_mem_b58encode _), lastPart_pair]
    case ha =>
      intro hm
      rcases List.mem_append.mp hm with hm | hm
      · revert hm; decide
      · exact hash_not_mem_b58encode _ hm
  have hb58 : b58decode (b58encode (237 :: 1 :: ed25519_public_bytes key))
      = some (237 :: 1 :: ed25519_public_bytes key) :=
    b58_roundtrip 237 (1 :: ed25519_public_bytes key) (by decide) (pref_bytes_lt key)
  have hlen : (ed25519_public_bytes key).length = 32 := natToBytesBE_length 32 key.seed
  have hvml : alookup "verificationMethod"
      (proof_entries_of key (generate_issuer_id key).2.2 pc (.obj pe))
      = some (.str (generate_issuer_id key).2.2) := rfl
  have hjwsl : alookup "jws"
      (proof_entries_of key (generate_issuer_id key).2.2 pc (.obj pe))
      = some (.str (detached_jws_of key (.obj pe))) := rfl
  have hjwsdata : (detached_jws_of key (.obj pe)).data
      = b64encode_nopad (utf8Encode (json_dumps_default jws_header_obj))
        ++ '.' :: (([] : List Char) ++ '.' ::
          b64encode_nopad (ed25519_sign key
            (utf8Encode (b64encode_nopad (utf8Encode (json_dumps_default jws_header_obj)))
              ++ Char.toNat '.' :: canonical_bytes (.obj pe)))) := by
    show (String.mk (b64encode_nopad (utf8Encode (json_dumps_default jws_header_obj)))
        ++ ".." ++ String.mk (b64encode_nopad (ed25519_sign key
          (utf8Encode (b64encode_nopad (utf8Encode (json_dumps_default jws_header_obj)))
            ++ Char.toNat '.' :: canonical_bytes (.obj pe))))).data = _
    rw [String.data_append, String.data_append, List.append_assoc]
    rfl
  have hsplitjws : splitOnChar '.' (detached_jws_of key (.obj pe)).data
      = [b64encode_nopad (utf8Encode (json_dumps_default jws_header_obj)), [],
         b64encode_nopad (ed25519_sign key
           (utf8Encode (b64encode_nopad (utf8Encode (json_dumps_default jws_header_obj)))
             ++ Char.toNat '.' :: canonical_bytes (.obj pe)))] := by
    rw [hjwsdata]
    exact splitOnChar_three (dot_not_mem_b64encode_nopad _)
      (by simp : ('.' : Char) ∉ ([] : List Char)) (dot_not_mem_b64encode_nopad _)
  have hsig_lt : ∀ y ∈ ed25519_sign key
      (utf8Encode (b64encode_nopad (utf8Encode (json_dumps_default jws_header_obj)))
        ++ Char.toNat '.' :: canonical_bytes (.obj pe)), y < 256 := by
    intro y hy
    rw [ed25519_sign] at hy
    rcases List.mem_append.mp hy with hy | hy
    · exact natToBytesBE_lt 32 key.seed y hy
    · rcases List.mem_append.mp hy with hy | hy
      · exact utf8Encode_lt _ y hy
      · rcases List.mem_cons.mp hy with rfl | hy
        · decide
        · exact utf8Encode_lt _ y hy
  have hb64 : b64decodePy (b64encode_nopad (ed25519_sign key
      (utf8Encode (b64encode_nopad (utf8Encode (json_dumps_default jws_header_obj)))
        ++ Char.toNat '.' :: canonical_bytes (.obj pe))) ++ ['=', '='])
      = some (ed25519_sign key
        (utf8Encode (b64encode_nopad (utf8Encode (json_dumps_default jws_header_obj)))
          ++ Char.toNat '.' :: canonical_bytes (.obj pe))) :=
    b64_roundtrip _ hsig_lt
  rw [verify_sig_steps, if_neg (by simp [truthy, proof_entries_of])]
  simp only [hvml, hlast, hb58, List.drop_succ_cons, List.drop_zero, hlen,
    eq_self_iff_true, ite_true, hjwsl, hsplitjws, hb64]
  simp only [ed25519_verify, ed25519_sign, beq_self_eq_true]

theorem verify_vc_signature_issued (key : Ed25519PrivateKey) (pe : List (String × Json))
    (hpe : "proof" ∉ keysOf pe) (pc : String) :
    verify_vc_signature (.obj (pe ++ [("proof",
      .obj (proof_entries_of key (generate_issuer_id key).2.2 pc (.obj pe)))])) = true := by
  rw [verify_vc_signature, verify_vc_signature_run, popProof_append_last hpe]
  simp only [verify_sig_steps_issued key pe pc, Option.getD_some]

/-! ### Shape of a successfully built credential -/

theorem exceptOk_bind {α β : Type} (a : α) (f : α → Except PyError β) :
    (Except.ok a >>= f) = f a := rfl

theorem exceptError_bind {α β : Type} (e : PyError) (f : α → Except PyError β) :
    ((Except.error e : Except PyError α) >>= f) = .error e := rfl

theorem keysOf_build_payload_entries (did t1 pn nm na ec bt ip : String) :
    keysOf (build_payload_entries did t1 pn nm na ec bt ip)
      = ["@context", "id", "type", "issuer", "issuanceDate", "credentialSubject"] := rfl

theorem create_signed_vc_ok {td : List (String × String)} {key : Ed25519PrivateKey}
    {did vm t1 t2 : String} {vc : Json}
    (h : create_signed_vc td key did vm t1 t2 = .ok vc) :
    ∃ pn nm na ec bt ip,
      alookupStr "passportNumber" td = some pn ∧
      alookupStr "name" td = some nm ∧
      alookupStr "nationality" td = some na ∧
      alookupStr "emergencyContact" td = some ec ∧
      alookupStr "bloodType" td = some bt ∧
      alookupStr "insurancePolicyId" td = some ip ∧
      vc = .obj (build_payload_entries did t1 pn nm na ec bt ip
        ++ [("proof", .obj (proof_entries_of key vm t2
          (.obj (build_payload_entries did t1 pn nm na ec bt ip))))]) := by
  rw [create_signed_vc] at h
  cases h1 : alookupStr "passportNumber" td with
  | none => simp [dictGet, h1, exceptError_bind] at h
  | some pn =>
    cases h2 : alookupStr "name" td with
    | none => simp [dictGet, h1, h2, exceptOk_bind, exceptError_bind] at h
    | some nm =>
      cases h3 : alookupStr "nationality" td with
      | none => simp [dictGet, h1, h2, h3, exceptOk_bind, exceptError_bind] at h
      | some na =>
        cases h4 : alookupStr "emergencyContact" td with
        | none => simp [dictGet, h1, h2, h3, h4, exceptOk_bind, exceptError_bind] at h
        | some ec =>
          cases h5 : alookupStr "bloodType" td with
          | none => simp [dictGet, h1, h2, h3, h4, h5, exceptOk_bind, exceptError_bind] at h
          | some bt =>
            cases h6 : alookupStr "insurancePolicyId" td with
            | none =>
                simp [dictGet, h1, h2, h3, h4, h5, h6, exceptOk_bind, exceptError_bind] at h
            | some ip =>
                refine ⟨pn, nm, na, ec, bt, ip, rfl, rfl, rfl, rfl, rfl, rfl, ?_⟩
                simp only [dictGet, h1, h2, h3, h4, h5, h6, exceptOk_bind] at h
                cases h
                rfl

/-! ### Claim C1: sign then verify round trip -/

/-- C1: for every subject-attribute record containing the six required string
fields and every issuer identity generated from a key, signing the built
credential payload and then verifying the resulting signed credential returns
`true`. -/
theorem C1_sign_then_verify (td : List (String × String)) (key : Ed25519PrivateKey)
    (issuanceDate proofCreated : String) (vc : Json)
    (h : issue_tourist_credential td key issuanceDate proofCreated = .ok vc) :
    verify_vc_signature vc = true := by
  rw [issue_tourist_credential] at h
  obtain ⟨pn, nm, na, ec, bt, ip, -, -, -, -, -, -, rfl⟩ := create_signed_vc_ok h
  exact verify_vc_signature_issued _ _ (by rw [keysOf_build_payload_entries]; decide) _

/-- C1 witness: the concrete sample credential is issued successfully and
verifies. -/
theorem C1_sign_then_verify_witness :
    issue_tourist_credential sample_tourist_data sample_key "2025-01-01T00:00:00"
      "2025-01-01T00:00:01" = .ok sampleVC ∧ verify_vc_signature sampleVC = true :=
  ⟨rfl, C1_sign_then_verify sample_tourist_data sample_key "2025-01-01T00:00:00"
    "2025-01-01T00:00:01" sampleVC rfl⟩

/-! ### Claim C2: determinism and order-independence of the canonicalizer -/

/-- C2: the canonical serialization is deterministic and order-independent —
for well-formed documents (no duplicate keys at any level) the canonical bytes
of `d1` and `d2` coincide exactly when `d1` and `d2` are the same logical
document, and consequently the digest of the canonical bytes is stable across
key-order permutations of equivalent documents. -/
theorem C2_canonicalization_iff (d1 d2 : Json) (hw1 : d1.wf = true) (hw2 : d2.wf = true) :
    (canonical_bytes d1 = canonical_bytes d2 ↔ SameDoc d1 d2)
    ∧ (SameDoc d1 d2 → sha256 (canonical_bytes d1) = sha256 (canonical_bytes d2)) :=
  ⟨canonical_bytes_eq_iff hw1 hw2,
   fun h => congrArg sha256 ((canonical_bytes_eq_iff hw1 hw2).mpr h)⟩

/-- C2 witness: two key-order permutations of one nested document. -/
theorem C2_canonicalization_iff_witness :
    permadoc1.wf = true ∧ permadoc2.wf = true
    ∧ ((canonical_bytes permadoc1 = canonical_bytes permadoc2 ↔ SameDoc permadoc1 permadoc2)
      ∧ (SameDoc permadoc1 permadoc2 →
          sha256 (canonical_bytes permadoc1) = sha256 (canonical_bytes permadoc2))) :=
  ⟨rfl, rfl, C2_canonicalization_iff permadoc1 permadoc2 rfl rfl⟩

/-! ### Claim C5: the two fingerprint paths -/

/-- C5: the issuance-path digest (`anchor_vc`) and the verification-path digest
(`verify_anchor`) are the same function of the credential: anchoring a
credential stores exactly the digest that the later lookup recomputes. -/
theorem C5_fingerprint_paths_agree (vc : Json) :
    anchor_vc_fingerprint vc = verify_anchor_fingerprint vc := rfl

/-! ### Claim C10: the constant document id -/

theorem docId_build (did t1 pn nm na ec bt ip : String) (prf : Json) :
    docId (.obj (build_payload_entries did t1 pn nm na ec bt ip ++ [("proof", prf)]))
      = some (.str "urn:uuid:4f378344-8596-4c3a-a978-8fcaba3903c5") := rfl

/-- C10: every issued credential carries the constant document id
`urn:uuid:4f378344-8596-4c3a-a978-8fcaba3903c5`, so the id fields of any two
issued credentials are equal and the id does not distinguish credentials. -/
theorem C10_constant_document_id
    (td1 td2 : List (String × String)) (k1 k2 : Ed25519PrivateKey)
    (d1 d2 c1 c2 : String) (vc1 vc2 : Json)
    (h1 : issue_tourist_credential td1 k1 d1 c1 = .ok vc1)
    (h2 : issue_tourist_credential td2 k2 d2 c2 = .ok vc2) :
    docId vc1 = some (.str "urn:uuid:4f378344-8596-4c3a-a978-8fcaba3903c5")
    ∧ docId vc1 = docId vc2 := by
  rw [issue_tourist_credential] at h1 h2
  obtain ⟨_, _, _, _, _, _, -, -, -, -, -, -, rfl⟩ := create_signed_vc_ok h1
  obtain ⟨_, _, _, _, _, _, -, -, -, -, -, -, rfl⟩ := create_signed_vc_ok h2
  exact ⟨docId_build _ _ _ _ _ _ _ _ _,
    (docId_build _ _ _ _ _ _ _ _ _).trans (docId_build _ _ _ _ _ _ _ _ _).symm⟩

set_option maxHeartbeats 2000000 in
/-- C10 witness: the sample credential carries the constant id. -/
theorem C10_constant_document_id_witness :
    issue_tourist_credential sample_tourist_data sample_key "2025-01-01T00:00:00"
        "2025-01-01T00:00:01" = .ok sampleVC
    ∧ (docId sampleVC = some (.str "urn:uuid:4f378344-8596-4c3a-a978-8fcaba3903c5")
      ∧ docId sampleVC = docId sampleVC) :=
  ⟨rfl, C10_constant_document_id sample_tourist_data sample_tourist_data sample_key
    sample_key "2025-01-01T00:00:00" "2025-01-01T00:00:00" "2025-01-01T00:00:01"
    "2025-01-01T00:00:01" sampleVC sampleVC rfl rfl⟩

/-! ### Claim C3: no MalformedCredentialError exists -/

set_option maxHeartbeats 2000000 in
/-- C3 counterexample: the engine never raises a MalformedCredentialError — a
structurally malformed credential (proof absent) and a well-formed credential
whose signature fails the cryptographic check produce the very same outcome
`false`; the two cases are collapsed into one, refuting the claimed
distinction at these concrete inputs. -/
theorem C3_counterexample :
    verify_vc_signature tinyNoProof = false
    ∧ verify_vc_signature tinyMixVC = false
    ∧ verify_vc_signature tinyNoProof = verify_vc_signature tinyMixVC :=
  ⟨rfl, rfl, rfl⟩

theorem verify_sig_steps_jws_none {pes : List (String × Json)} {rest : Json}
    (hjws : alookup "jws" pes = none) :
    (verify_sig_steps (.obj pes) rest).getD false = false := by
  rw [verify_sig_steps]
  by_cases htr : truthy (.obj pes) = false
  · rw [if_pos htr]
    rfl
  · rw [if_neg htr]
    cases hvm : alookup "verificationMethod" pes with
    | none => simp [hvm]
    | some v =>
        cases v with
        | str vm =>
            simp only [hvm]
            cases hb : b58decode (lastPart (splitOnChar '#' vm.data)) with
            | none => simp [hb]
            | some pref =>
                simp only [hb]
                by_cases hl : (pref.drop 2).length = 32
                · rw [if_pos hl, hjws]
                  rfl
                · rw [if_neg hl]
                  rfl
        | bool b => simp [hvm]
        | arr xs => simp [hvm]
        | obj es2 => simp [hvm]

/-- C3 (amended): verification raises no distinguished error for malformed
input: when the proof member is absent, or present without a `jws` field, the
function returns `false` — the same value a failed cryptographic check
returns, the source defining no MalformedCredentialError at all. -/
theorem C3_verify_never_raises (vc rest : Json) (pes : List (String × Json)) :
    (popProof vc = none → verify_vc_signature vc = false)
    ∧ (popProof vc = some (.obj pes, rest) → alookup "jws" pes = none →
        verify_vc_signature vc = false) := by
  constructor
  · intro h
    rw [verify_vc_signature, verify_vc_signature_run, h]
  · intro h hjws
    rw [verify_vc_signature, verify_vc_signature_run, h]
    exact verify_sig_steps_jws_none hjws

/-- C3 witness: a non-dict input and a credential whose proof lacks `jws`. -/
theorem C3_verify_never_raises_witness :
    verify_vc_signature (.bool true) = false
    ∧ verify_vc_signature sampleJwsless = false :=
  ⟨(C3_verify_never_raises (.bool true) (.bool true) []).1 rfl,
   (C3_verify_never_raises sampleJwsless (.obj [("x", .str "v")])
      [("type", .str "Ed25519Signature2018")]).2 rfl rfl⟩

/-! ### Claim C4: what the anchor digest ranges over -/

theorem alookup_proof_build (did t1 pn nm na ec bt ip : String) :
    alookup "proof" (build_payload_entries did t1 pn nm na ec bt ip) = none := rfl

set_option maxHeartbeats 2000000 in
/-- C4 counterexample: for the concrete signed sample credential, the digest
computed at anchor time (and the identical one at verification time) is NOT
the digest of the canonical bytes of the proof-free payload — the fingerprint
ranges over the full credential including the proof block. -/
theorem C4_counterexample :
    anchor_vc_fingerprint sampleVC ≠ sha256 (canonical_bytes sampleNoProof)
    ∧ verify_anchor_fingerprint sampleVC ≠ sha256 (canonical_bytes sampleNoProof) := by
  decide

/-- C4 (amended): for every issued credential both fingerprint call sites
compute the digest of the canonical bytes of the full signed credential,
proof included: the two sites agree with each other, and the common value
differs from the digest of the proof-free payload the credential pops to. -/
theorem C4_digest_full_credential {td : List (String × String)} {key : Ed25519PrivateKey}
    {t1 t2 : String} {vc prf rest : Json}
    (hok : issue_tourist_credential td key t1 t2 = .ok vc)
    (hpop : popProof vc = some (prf, rest)) :
    anchor_vc_fingerprint vc = verify_anchor_fingerprint vc
    ∧ anchor_vc_fingerprint vc = sha256 (canonical_bytes vc)
    ∧ anchor_vc_fingerprint vc ≠ sha256 (canonical_bytes rest) := by
  rw [issue_tourist_credential] at hok
  obtain ⟨pn, nm, na, ec, bt, ip, -, -, -, -, -, -, rfl⟩ := create_signed_vc_ok hok
  rw [popProof_append_last (by rw [keysOf_build_payload_entries]; decide)] at hpop
  cases hpop
  refine ⟨rfl, rfl, ?_⟩
  intro hdig
  have hbytes := congrArg Sha256Digest.bytes hdig
  have hsd := (canonical_bytes_eq_iff (by rfl) (by rfl)).mp hbytes
  cases hsd with
  | obj hdom hval =>
      have hp := hdom "proof"
      rw [alookup_append_last _ (by rw [keysOf_build_payload_entries]; decide),
        alookup_proof_build] at hp
      simp at hp

/-! ### Claim C6: verification mutates its input -/

theorem eraseKey_length_lt {k : String} {v : Json} : ∀ {es : List (String × Json)},
    alookup k es = some v → (eraseKey k es).length < es.length := by
  intro es h
  induction es with
  | nil => cases h
  | cons e es ih =>
      obtain ⟨k2, w⟩ := e
      rw [alookup] at h
      rw [eraseKey]
      by_cases hk : k2 = k
      · rw [if_pos hk]; simp
      · rw [if_neg hk] at h ⊢
        simp only [List.length_cons]
        exact Nat.succ_lt_succ (ih h)

theorem alookup_eraseKey_self (k : String) : ∀ es : List (String × Json),
    nodupKeysB es = true → alookup k (eraseKey k es) = none
  | [], _ => rfl
  | (k2, v) :: es, h => by
      have hnd := (nodupKeysB_iff ((k2, v) :: es)).mp h
      rw [keysOf, List.map_cons, List.nodup_cons] at hnd
      rw [eraseKey]
      by_cases hk : k2 = k
      · rw [if_pos hk]
        subst hk
        exact (alookup_eq_none_iff k2 es).mpr hnd.1
      · rw [if_neg hk, alookup, if_neg hk]
        exact alookup_eraseKey_self k es ((nodupKeysB_iff es).mpr hnd.2)

set_option maxHeartbeats 2000000 in
/-- C6 counterexample: verification is not a pure function of its input
document — on the valid sample credential it returns `true` but removes the
proof member from the document it was given, and re-running it on that
mutated document returns `false`, refuting both the unchanged-input and the
repeated-identical-results parts of the claim. -/
theorem C6_counterexample :
    verify_vc_signature tinyVC = true
    ∧ (verify_vc_signature_run tinyVC).2 ≠ tinyVC
    ∧ verify_vc_signature ((verify_vc_signature_run tinyVC).2) = false :=
  ⟨rfl, fun h => absurd (congrArg topLength h) (by decide), rfl⟩

/-- C6 (amended): verification mutates its argument: on a document carrying a
proof member (keys unduplicated, as for any parsed JSON object) the call
strips that member, leaving a strictly smaller document, and a second call on
the mutated document returns `false`; the dashboard call site accordingly
passes a copy (`vc_json.copy()`). -/
theorem C6_verify_mutates (es : List (String × Json)) (prf rest : Json)
    (hnd : nodupKeysB es = true)
    (hpop : popProof (.obj es) = some (prf, rest)) :
    (verify_vc_signature_run (.obj es)).2 = rest
    ∧ rest ≠ .obj es
    ∧ verify_vc_signature rest = false := by
  rw [popProof] at hpop
  cases hal : alookup "proof" es with
  | none => rw [hal] at hpop; cases hpop
  | some p =>
      rw [hal] at hpop
      cases hpop
      refine ⟨?_, ?_, ?_⟩
      · rw [verify_vc_signature_run, popProof, hal]
      · intro he
        have hlen := congrArg topLength he
        simp only [topLength] at hlen
        have hlt := eraseKey_length_lt hal
        omega
      · rw [verify_vc_signature, verify_vc_signature_run, popProof,
          alookup_eraseKey_self "proof" es hnd]

set_option maxHeartbeats 2000000 in
/-- C6 witness: a signed document's entry list, its proof and its proof-free
remainder. -/
theorem C6_verify_mutates_witness :
    nodupKeysB tinyEntries = true
    ∧ popProof (.obj tinyEntries) = some (tinyProof, Json.obj tinyPayload)
    ∧ ((verify_vc_signature_run (.obj tinyEntries)).2 = Json.obj tinyPayload
      ∧ Json.obj tinyPayload ≠ Json.obj tinyEntries
      ∧ verify_vc_signature (Json.obj tinyPayload) = false) :=
  ⟨rfl, rfl, C6_verify_mutates tinyEntries tinyProof (Json.obj tinyPayload) rfl rfl⟩

/-! ### Claim C7: segment count of the detached JWS -/

set_option maxHeartbeats 2000000 in
/-- C7 counterexample: a detached JWS with three segments and a NON-empty
middle segment (`AAAA`) is accepted — verification returns `true`, refuting
the claim that such a credential is rejected.  The source binds the middle
segment to `_` and never inspects it. -/
theorem C7_counterexample :
    jws_middle_segment tinyVC_midjws = some ['A', 'A', 'A', 'A']
    ∧ verify_vc_signature tinyVC_midjws = true :=
  ⟨rfl, rfl⟩

/-- C7 (amended): the verifier rejects (returns `false`) any credential whose
detached JWS does not split on `.` into exactly three segments; the middle
segment's content is not checked. -/
theorem C7_segment_count (vc rest : Json) (pes : List (String × Json)) (jws : String)
    (hpop : popProof vc = some (.obj pes, rest))
    (hjws : alookup "jws" pes = some (.str jws))
    (hsplit : (splitOnChar '.' jws.data).length ≠ 3) :
    verify_vc_signature vc = false := by
  rw [verify_vc_signature, verify_vc_signature_run, hpop]
  show (verify_sig_steps (.obj pes) rest).getD false = false
  rw [verify_sig_steps]
  by_cases htr : truthy (.obj pes) = false
  · rw [if_pos htr]
    rfl
  · rw [if_neg htr]
    cases hvm : alookup "verificationMethod" pes with
    | none => simp [hvm]
    | some v =>
        cases v with
        | str vm =>
            simp only [hvm]
            cases hb : b58decode (lastPart (splitOnChar '#' vm.data)) with
            | none => simp [hb]
            | some pref =>
                simp only [hb]
                by_cases hl : (pref.drop 2).length = 32
                · rw [if_pos hl]
                  simp only [hjws]
                  cases hsp : splitOnChar '.' jws.data with
                  | nil => rfl
                  | cons a l1 =>
                    cases l1 with
                    | nil => rfl
                    | cons b l2 =>
                      cases l2 with
                      | nil => rfl
                      | cons c l3 =>
                        cases l3 with
                        | nil => exact absurd (by rw [hsp]; rfl) hsplit
                        | cons d l4 => rfl
                · rw [if_neg hl]
                  rfl
        | bool b => simp [hvm]
        | arr xs => simp [hvm]
        | obj es2 => simp [hvm]

/-- C7 witness: a credential whose detached JWS has a single segment. -/
theorem C7_segment_count_witness :
    popProof sampleBadJws = some (.obj [("verificationMethod", .str "did:key:z#z"),
        ("jws", .str "ab")], .obj [("a", .str "1")])
    ∧ (splitOnChar '.' "ab".data).length ≠ 3
    ∧ verify_vc_signature sampleBadJws = false :=
  ⟨rfl, by decide, C7_segment_count sampleBadJws (.obj [("a", .str "1")])
    [("verificationMethod", .str "did:key:z#z"), ("jws", .str "ab")] "ab" rfl rfl
    (by decide)⟩

/-! ### Claim C8: what the builder validates -/

/-- C8 counterexample: a record whose `bloodType` is the empty string is
accepted by the builder — no non-empty-string validation exists, refuting the
claim that such records are rejected. -/
theorem C8_counterexample :
    alookupStr "bloodType" sample_tourist_data_emptyblood = some ""
    ∧ exceptIsOkB (create_signed_vc sample_tourist_data_emptyblood sample_key
        "did:key:z" "did:key:z#z" "2025-01-01T00:00:00" "2025-01-01T00:00:01") = true :=
  ⟨rfl, rfl⟩

/-- C8 (amended): the builder validates nothing: it succeeds on any record
containing the six required fields whatever their string values (empty
strings included), and on a record missing at least one required field it
fails with the builtin KeyError naming the first absent field in the
evaluation order of the payload literal (passportNumber, name, nationality,
emergencyContact, bloodType, insurancePolicyId); no MissingFieldError
exists in the source. -/
theorem C8_no_validation (td : List (String × String)) (key : Ed25519PrivateKey)
    (did vm t1 t2 : String) :
    (firstMissingField td = none →
      exceptIsOkB (create_signed_vc td key did vm t1 t2) = true)
    ∧ (∀ k, firstMissingField td = some k →
        create_signed_vc td key did vm t1 t2 = .error (.keyError k)) := by
  cases h1 : alookupStr "passportNumber" td with
  | none =>
      refine ⟨fun hm => ?_, fun k hm => ?_⟩
      · rw [firstMissingField] at hm; simp [h1] at hm
      · rw [firstMissingField] at hm
        simp [h1] at hm
        subst hm
        rw [create_signed_vc]
        simp [dictGet, h1, exceptError_bind]
  | some pn =>
    cases h2 : alookupStr "name" td with
    | none =>
        refine ⟨fun hm => ?_, fun k hm => ?_⟩
        · rw [firstMissingField] at hm; simp [h1, h2] at hm
        · rw [firstMissingField] at hm
          simp [h1, h2] at hm
          subst hm
          rw [create_signed_vc]
          simp [dictGet, h1, h2, exceptOk_bind, exceptError_bind]
    | some nm =>
      cases h3 : alookupStr "nationality" td with
      | none =>
          refine ⟨fun hm => ?_, fun k hm => ?_⟩
          · rw [firstMissingField] at hm; simp [h1, h2, h3] at hm
          · rw [firstMissingField] at hm
            simp [h1, h2, h3] at hm
            subst hm
            rw [create_signed_vc]
            simp [dictGet, h1, h2, h3, exceptOk_bind, exceptError_bind]
      | some na =>
        cases h4 : alookupStr "emergencyContact" td with
        | none =>
            refine ⟨fun hm => ?_, fun k hm => ?_⟩
            · rw [firstMissingField] at hm; simp [h1, h2, h3, h4] at hm
            · rw [firstMissingField] at hm
              simp [h1, h2, h3, h4] at hm
              subst hm
              rw [create_signed_vc]
              simp [dictGet, h1, h2, h3, h4, exceptOk_bind, exceptError_bind]
        | some ec =>
          cases h5 : alookupStr "bloodType" td with
          | none =>
              refine ⟨fun hm => ?_, fun k hm => ?_⟩
              · rw [firstMissingField] at hm; simp [h1, h2, h3, h4, h5] at hm
              · rw [firstMissingField] at hm
                simp [h1, h2, h3, h4, h5] at hm
                subst hm
                rw [create_signed_vc]
                simp [dictGet, h1, h2, h3, h4, h5, exceptOk_bind, exceptError_bind]
          | some bt =>
            cases h6 : alookupStr "insurancePolicyId" td with
            | none =>
                refine ⟨fun hm => ?_, fun k hm => ?_⟩
                · rw [firstMissingField] at hm; simp [h1, h2, h3, h4, h5, h6] at hm
                · rw [firstMissingField] at hm
                  simp [h1, h2, h3, h4, h5, h6] at hm
                  subst hm
                  rw [create_signed_vc]
                  simp [dictGet, h1, h2, h3, h4, h5, h6, exceptOk_bind, exceptError_bind]
            | some ip =>
                refine ⟨fun hm => ?_, fun k hm => ?_⟩
                · rw [create_signed_vc]
                  simp [dictGet, h1, h2, h3, h4, h5, h6, exceptOk_bind, exceptIsOkB,
                    pure, Except.pure]
                · rw [firstMissingField] at hm
                  simp [h1, h2, h3, h4, h5, h6] at hm

/-- C8 witness: a record with `name` absent fails with KeyError "name". -/
theorem C8_no_validation_witness :
    firstMissingField td_missing_name = some "name"
    ∧ create_signed_vc td_missing_name sample_key "did:key:z" "did:key:z#z"
        "2025-01-01T00:00:00" "2025-01-01T00:00:01" = .error (.keyError "name") :=
  ⟨rfl, (C8_no_validation td_missing_name sample_key "did:key:z" "did:key:z#z"
    "2025-01-01T00:00:00" "2025-01-01T00:00:01").2 "name" rfl⟩

/-! ### Claim C9: mutation after signing is rejected -/

/-- C9: if a signed credential verifies as `true`, then a credential carrying
the same proof over a mutated payload — any change making it a different
logical document, e.g. one character of one field value flipped — verifies
as `false`. -/
theorem C9_mutation_rejected (vc vc2 prf rest rest2 : Json)
    (hpop : popProof vc = some (prf, rest)) (hpop2 : popProof vc2 = some (prf, rest2))
    (hwf : rest.wf = true) (hwf2 : rest2.wf = true)
    (hne : ¬ SameDoc rest rest2)
    (htrue : verify_vc_signature vc = true) :
    verify_vc_signature vc2 = false := by
  rw [verify_vc_signature, verify_vc_signature_run, hpop] at htrue
  rw [verify_vc_signature, verify_vc_signature_run, hpop2]
  have htrue2 : (verify_sig_steps prf rest).getD false = true := htrue
  show (verify_sig_steps prf rest2).getD false = false
  have hsteps : verify_sig_steps prf rest = some true := by
    cases hs : verify_sig_steps prf rest with
    | none => rw [hs] at htrue2; exact absurd htrue2 (by simp)
    | some b =>
        rw [hs] at htrue2
        simp only [Option.getD_some] at htrue2
        subst htrue2
        rfl
  cases prf with
  | str s =>
      rw [verify_sig_steps] at hsteps
      · split at hsteps <;> exact absurd hsteps (by simp)
      · intro es h; cases h
  | bool b =>
      rw [verify_sig_steps] at hsteps
      · split at hsteps <;> exact absurd hsteps (by simp)
      · intro es h; cases h
  | arr xs =>
      rw [verify_sig_steps] at hsteps
      · split at hsteps <;> exact absurd hsteps (by simp)
      · intro es h; cases h
  | obj pes =>
    rw [verify_sig_steps] at hsteps
    rw [verify_sig_steps]
    by_cases htr : truthy (.obj pes) = false
    · rw [if_pos htr] at hsteps
      exact absurd hsteps (by simp)
    · rw [if_neg htr] at hsteps
      rw [if_neg htr]
      cases hvm : alookup "verificationMethod" pes with
        | none => simp [hvm] at hsteps
        | some v =>
          cases v with
          | bool bb => simp [hvm] at hsteps
          | arr ax => simp [hvm] at hsteps
          | obj ox => simp [hvm] at hsteps
          | str vm =>
            simp only [hvm] at hsteps ⊢
            cases hb : b58decode (lastPart (splitOnChar '#' vm.data)) with
            | none => simp [hb] at hsteps
            | some pref =>
              simp only [hb] at hsteps ⊢
              by_cases hl : (pref.drop 2).length = 32
              · rw [if_pos hl] at hsteps ⊢
                cases hjws : alookup "jws" pes with
                | none => simp [hjws] at hsteps
                | some jv =>
                  cases jv with
                  | bool bb => simp [hjws] at hsteps
                  | arr ax => simp [hjws] at hsteps
                  | obj ox => simp [hjws] at hsteps
                  | str jws =>
                    simp only [hjws] at hsteps ⊢
                    cases hsp : splitOnChar '.' jws.data with
                    | nil => simp [hsp] at hsteps
                    | cons a l1 =>
                      cases l1 with
                      | nil => simp [hsp] at hsteps
                      | cons b2 l2 =>
                        cases l2 with
                        | nil => simp [hsp] at hsteps
                        | cons c l3 =>
                          cases l3 with
                          | cons d l4 => simp [hsp] at hsteps
                          | nil =>
                            simp only [hsp] at hsteps ⊢
                            cases hb64 : b64decodePy (c ++ ['=', '=']) with
                            | none => simp [hb64] at hsteps
                            | some sig =>
                              simp only [hb64, Option.some.injEq, Option.getD_some]
                                at hsteps ⊢
                              rw [ed25519_verify] at hsteps ⊢
                              have hsig := eq_of_beq hsteps
                              rw [beq_eq_false_iff_ne, hsig]
                              intro heq
                              have h1 := List.append_cancel_left
                                (List.append_cancel_left heq)
                              simp only [List.cons.injEq] at h1
                              exact hne ((canonical_bytes_eq_iff hwf hwf2).mp h1.2)
              · rw [if_neg hl] at hsteps
                exact absurd hsteps (by simp)

set_option maxHeartbeats 2000000 in
/-- C9 witness: the minimal signed document verifies; flipping its single
field value and re-verifying returns false. -/
theorem C9_mutation_rejected_witness :
    verify_vc_signature tinyVC = true ∧ verify_vc_signature tinyMixVC = false :=
  ⟨rfl, C9_mutation_rejected tinyVC tinyMixVC tinyProof (.obj tinyPayload)
    (.obj [("a", .str "2")]) rfl rfl rfl rfl
    (fun h => absurd ((canonical_bytes_eq_iff
      (show (Json.obj tinyPayload).wf = true from rfl)
      (show (Json.obj [("a", Json.str "2")]).wf = true from rfl)).mpr h) (by decide)) rfl⟩

set_option maxHeartbeats 2000000 in
/-- C4 witness: the sample issued credential, its proof and its remainder. -/
theorem C4_digest_full_credential_witness :
    issue_tourist_credential sample_tourist_data sample_key "2025-01-01T00:00:00"
        "2025-01-01T00:00:01" = .ok sampleVC
    ∧ popProof sampleVC = some (sampleProof, sampleNoProof)
    ∧ (anchor_vc_fingerprint sampleVC = verify_anchor_fingerprint sampleVC
      ∧ anchor_vc_fingerprint sampleVC = sha256 (canonical_bytes sampleVC)
      ∧ anchor_vc_fingerprint sampleVC ≠ sha256 (canonical_bytes sampleNoProof)) :=
  ⟨rfl, rfl, C4_digest_full_credential
    (show issue_tourist_credential sample_tourist_data sample_key "2025-01-01T00:00:00"
      "2025-01-01T00:00:01" = .ok sampleVC from rfl)
    (show popProof sampleVC = some (sampleProof, sampleNoProof) from rfl)⟩
